import Mathlib

/-!
Verification of the joint library: a uniform read-only filesystem layer over
the local OS, FTP/SFTP/WebDAV services and (nested) ISO-9660 images.

The Go sources are shallowly embedded: pure string functions become Lean
functions over `String` (whose `data` field is the character list), stateful
joints become explicit state-passing functions on small state records, and
fallible operations return an error component modelled by `GoErr`.
-/

set_option autoImplicit false

namespace Joint

/-- Error values observable through the public API (sentinels of the Go
`io`/`io/fs` packages and of this package). -/
inductive GoErr where
  | errExist
  | errNotExist
  | errInvalid
  | errEOF
  | errUnexpectedEOF
  deriving DecidableEq, Repr

/-! ## String primitives

Mirrors of the Go `strings` builtins used by the sources, written over
`String.data`.  All paths handled by the claims are ASCII, so character
indices coincide with Go's byte indices. -/

/-- Character-list version of Go `s[a:]`. -/
def strDrop (s : String) (a : Nat) : String :=
  String.mk (s.data.drop a)

/-- Character-list version of Go `s[:b]`. -/
def strTake (s : String) (b : Nat) : String :=
  String.mk (s.data.take b)

/-- First index at which `pat` occurs in `s`, over character lists. -/
def firstIdx (s pat : List Char) : Option Nat :=
  match s with
  | [] => if pat = [] then some 0 else none
  | _ :: t => if pat.isPrefixOf s then some 0 else (firstIdx t pat).map (· + 1)

/-- Go `strings.Index`: first occurrence of `pat` in `s`, `-1` when absent. -/
def goIndex (s pat : String) : Int :=
  match firstIdx s.data pat.data with
  | some n => (n : Int)
  | none => -1

/-- Largest index `i ≤ n` at which `pat` occurs in `s`, `-1` when none. -/
def lastIdxAux (s pat : List Char) : Nat → Int
  | 0 => if pat.isPrefixOf s then 0 else -1
  | i + 1 =>
    if pat.isPrefixOf (s.drop (i + 1)) then ((i + 1 : Nat) : Int)
    else lastIdxAux s pat i

/-- Go `strings.LastIndex`: last occurrence of `pat` in `s`, `-1` when absent. -/
def goLastIndex (s pat : String) : Int :=
  lastIdxAux s.data pat.data s.data.length

/-- Go `strings.HasPrefix`. -/
def goHasPrefix (s pat : String) : Bool :=
  pat.data.isPrefixOf s.data

/-! ## Path utilities (`pathutil.go` / `pool.go`) -/

/-- `JoinPath` of `pathutil.go` (identical to `JoinFast` of `pool.go`):
fast join of two path chunks. -/
def joinPath (dir base : String) : String :=
  if dir = "" ∨ dir = "." then base
  else if base = "" ∨ base = "." then dir
  else if dir.data.getLast? = some '/' then
    if base.data.head? = some '/' then dir ++ String.mk base.data.tail
    else dir ++ base
  else if base.data.head? = some '/' then dir ++ base
  else dir ++ "/" ++ base

/-- `IsTypeIso`: the last four characters (Go: `ext := fpath[len-4:]`) are
`.iso` or `.ISO`. -/
def isTypeIso (fpath : String) : Bool :=
  if fpath.data.length < 4 then false
  else strDrop fpath (fpath.data.length - 4) = ".iso"
    ∨ strDrop fpath (fpath.data.length - 4) = ".ISO"

/-! ## Claim C10: algebraic laws of the fast path join -/

theorem stringMk_data (s : String) : String.mk s.data = s := rfl

theorem stringData_append (a b : String) : (a ++ b).data = a.data ++ b.data :=
  String.data_append a b

theorem stringAppend_assoc (a b c : String) : a ++ b ++ c = a ++ (b ++ c) := by
  apply String.ext
  simp only [stringData_append, List.append_assoc]

theorem appendSlash_ne_empty (a : String) : a ++ "/" ≠ "" := by
  intro h
  have h2 : (a ++ "/").data = "".data := by rw [h]
  rw [stringData_append] at h2
  simp at h2

theorem appendSlash_getLast (a : String) :
    (a ++ "/").data.getLast? = some '/' := by
  rw [stringData_append]
  exact List.getLast?_concat a.data

theorem appendSlash_ne_dot (a : String) : a ++ "/" ≠ "." := by
  intro h
  have h2 : (a ++ "/").data.getLast? = ("." : String).data.getLast? := by rw [h]
  rw [appendSlash_getLast] at h2
  simp [List.getLast?] at h2

theorem slashAppend_head (b : String) :
    ("/" ++ b).data.head? = some '/' := by
  rw [stringData_append]; rfl

theorem slashAppend_ne_empty (b : String) : "/" ++ b ≠ "" := by
  intro h
  have h2 : ("/" ++ b).data = "".data := by rw [h]
  rw [stringData_append] at h2
  simp at h2

theorem slashAppend_ne_dot (b : String) : "/" ++ b ≠ "." := by
  intro h
  have h2 : ("/" ++ b).data = ".".data := by rw [h]
  rw [stringData_append] at h2
  have : '/' = '.' := by
    have := List.head?_eq_head (l := ("/" : String).data ++ b.data)
    simpa using congrArg List.head? h2
  simp at this

theorem slashAppend_tail (b : String) :
    String.mk ("/" ++ b).data.tail = b := by
  apply String.ext
  rw [stringData_append]
  rfl

/-- Claim C10, counterexample: the separator-absorption law
`JoinPath(a, b) == JoinPath(a+"/", b)` fails at `a = ""`, `b = "x"`, and the
identity law `JoinPath(a, "") == a` fails at `a = "."`. -/
theorem joinPath_claimed_laws_fail :
    ¬ (joinPath "" "x" = joinPath ("" ++ "/") "x") ∧
    ¬ (joinPath "." "" = ".") := by
  constructor <;> decide

/-- Claim C10, amended: `JoinPath("", a) = a` for every `a`;
`JoinPath(a, "") = a` for every `a ≠ "."`; and the four separator-absorption
expressions all equal `a ++ "/" ++ b` whenever `a` and `b` are neither empty
nor `"."`, `a` does not already end with `/` and `b` does not already start
with `/`. -/
theorem joinPath_laws :
    (∀ a : String, joinPath "" a = a)
  ∧ (∀ a : String, a ≠ "." → joinPath a "" = a)
  ∧ (∀ a b : String, a ≠ "" → a ≠ "." → b ≠ "" → b ≠ "." →
      a.data.getLast? ≠ some '/' → b.data.head? ≠ some '/' →
      joinPath a b = a ++ "/" ++ b
    ∧ joinPath (a ++ "/") b = a ++ "/" ++ b
    ∧ joinPath a ("/" ++ b) = a ++ "/" ++ b
    ∧ joinPath (a ++ "/") ("/" ++ b) = a ++ "/" ++ b) := by
  refine ⟨?_, ?_, ?_⟩
  · intro a
    simp [joinPath]
  · intro a ha
    by_cases h : a = ""
    · subst h; simp [joinPath]
    · simp [joinPath, h, ha]
  · intro a b ha1 ha2 hb1 hb2 ha3 hb3
    have hao : ¬ (a = "" ∨ a = ".") := not_or.mpr ⟨ha1, ha2⟩
    have hbo : ¬ (b = "" ∨ b = ".") := not_or.mpr ⟨hb1, hb2⟩
    have haso : ¬ (a ++ "/" = "" ∨ a ++ "/" = ".") :=
      not_or.mpr ⟨appendSlash_ne_empty a, appendSlash_ne_dot a⟩
    have hbso : ¬ ("/" ++ b = "" ∨ "/" ++ b = ".") :=
      not_or.mpr ⟨slashAppend_ne_empty b, slashAppend_ne_dot b⟩
    refine ⟨?_, ?_, ?_, ?_⟩
    · rw [joinPath, if_neg hao, if_neg hbo, if_neg ha3, if_neg hb3]
    · rw [joinPath, if_neg haso, if_neg hbo, if_pos (appendSlash_getLast a),
        if_neg hb3]
    · rw [joinPath, if_neg hao, if_neg hbso, if_neg ha3,
        if_pos (slashAppend_head b), stringAppend_assoc]
    · rw [joinPath, if_neg haso, if_neg hbso, if_pos (appendSlash_getLast a),
        if_pos (slashAppend_head b), slashAppend_tail]

/-- Claim C10, witness: the amended laws at `a = "x"`, `b = "y"`. -/
theorem joinPath_laws_witness :
    joinPath "x" "y" = "x" ++ "/" ++ "y" ∧ joinPath "x" "" = "x" := by
  refine ⟨(joinPath_laws.2.2 "x" "y" (by decide) (by decide) (by decide)
    (by decide) (by decide) (by decide)).1, joinPath_laws.2.1 "x" (by decide)⟩

/-! ## File modes and the FileInfo adapter (claim C4)

Go `io/fs.FileMode` is a 32-bit field; the bits used by the sources are
modelled as `Nat` constants.  An underlying directory entry (an ISO-9660
record of `iso.go`, or the wrapped `fs.FileInfo` of the generic adapter) is
reduced to the pair of its name and its Go mode. -/

def modeDir : Nat := 2 ^ 31
def modeSymlink : Nat := 2 ^ 27
def modeDevice : Nat := 2 ^ 26
def modeNamedPipe : Nat := 2 ^ 25
def modeSocket : Nat := 2 ^ 24
def modeCharDevice : Nat := 2 ^ 21
def modeIrregular : Nat := 2 ^ 19

/-- Go `fs.ModeType`: the union of all file-type bits. -/
def modeType : Nat :=
  modeDir ||| modeSymlink ||| modeNamedPipe ||| modeSocket |||
  modeDevice ||| modeCharDevice ||| modeIrregular

/-- Go `FileMode.IsDir`. -/
def modeIsDir (m : Nat) : Bool := m &&& modeDir ≠ 0

/-- Go `FileMode.IsRegular`. -/
def modeIsRegular (m : Nat) : Bool := m &&& modeType = 0

/-- An underlying directory entry: display name plus Go mode bits. -/
structure GoEntry where
  name : String
  mode : Nat
  deriving DecidableEq, Repr

/-- `IsoFileInfo.Mode` of `iso.go`: the underlying mode, with the directory
bit ORed in when the entry is a regular file with the ISO suffix. -/
def isoFileInfoMode (f : GoEntry) : Nat :=
  if modeIsRegular f.mode && isTypeIso f.name then f.mode ||| modeDir
  else f.mode

/-- `IsoFileInfo.IsDir` of `iso.go`. -/
def isoFileInfoIsDir (f : GoEntry) : Bool :=
  modeIsDir f.mode || isTypeIso f.name

/-- `IsoFileInfo.IsRealDir` of `iso.go`: the underlying directory bit alone. -/
def isoFileInfoIsRealDir (f : GoEntry) : Bool :=
  modeIsDir f.mode

/-- `fileinfo.Mode` of the generic adapter. -/
def fileinfoMode (f : GoEntry) : Nat :=
  if modeIsRegular f.mode && isTypeIso f.name then f.mode ||| modeDir
  else f.mode

/-- `fileinfo.IsDir` of the generic adapter. -/
def fileinfoIsDir (f : GoEntry) : Bool :=
  modeIsDir f.mode || isTypeIso f.name

/-- `fileinfo.IsRealDir` of the generic adapter. -/
def fileinfoIsRealDir (f : GoEntry) : Bool :=
  modeIsDir f.mode

/-- Spec-modelled comparator for the claim's words: the entry name ends with
`.iso` case-insensitively (any mixed-case variant of the suffix counts). -/
def isoSuffixCI (s : String) : Bool :=
  if s.data.length < 4 then false
  else (strDrop s (s.data.length - 4)).data.map Char.toLower = ".iso".data

theorem land_modeDir_eq (m : Nat) :
    m &&& modeDir = if m.testBit 31 then modeDir else 0 := by
  apply Nat.eq_of_testBit_eq
  intro i
  rw [Nat.testBit_land]
  by_cases hi : (31 : Nat) = i
  · subst hi
    cases h : m.testBit 31 <;> simp [h]
  · have h2 : modeDir.testBit i = false := by
      unfold modeDir
      rw [Nat.testBit_two_pow]
      simp [hi]
    cases h : m.testBit 31 <;> simp [h, h2, Nat.zero_testBit]

theorem modeIsDir_testBit (m : Nat) : modeIsDir m = m.testBit 31 := by
  unfold modeIsDir
  rw [land_modeDir_eq]
  cases h : m.testBit 31 <;> simp [modeDir]

theorem modeIsRegular_dirBit (m : Nat) (h : modeIsRegular m = true) :
    m.testBit 31 = false := by
  unfold modeIsRegular at h
  have hz : m &&& modeType = 0 := by simpa using h
  by_contra hb
  have hb2 : m.testBit 31 = true := by simpa using hb
  have : (m &&& modeType).testBit 31 = true := by
    rw [Nat.testBit_land, hb2]
    decide
  rw [hz, Nat.zero_testBit] at this
  exact Bool.false_ne_true this

/-- Claim C4, counterexample: a regular file named `a.Iso` (mixed-case ISO
suffix, mode `0o444`) has `IsDir() = false` in the code, while the claim's
case-insensitive suffix rule demands `true`. -/
theorem isoFileInfo_claim_fails :
    ¬ (isoFileInfoIsDir ⟨"a.Iso", 0o444⟩ =
       (modeIsDir 0o444 || isoSuffixCI "a.Iso")) := by
  decide

/-- Claim C4, amended: for every adapted entry, `IsDir()` is the underlying
directory bit ORed with the exact-case ISO-suffix test (`.iso` or `.ISO`,
mixed case does not count); `IsRealDir()` is the directory bit alone (so an
ISO-suffixed regular file gets `IsDir = true`, `IsRealDir = false`, and a
real directory gets both); and `Mode()` keeps every bit of the underlying
mode except that the directory bit is additionally set exactly when the entry
is a regular file with the ISO suffix.  Both adapters (the `IsoFileInfo` of
`iso.go` and the generic `fileinfo` wrapper) satisfy the same equations. -/
theorem fileInfo_adapter_rules (f : GoEntry) :
    isoFileInfoIsDir f = (modeIsDir f.mode || isTypeIso f.name)
  ∧ isoFileInfoIsRealDir f = modeIsDir f.mode
  ∧ (∀ i : Nat, i ≠ 31 → (isoFileInfoMode f).testBit i = f.mode.testBit i)
  ∧ (isoFileInfoMode f).testBit 31 =
      (f.mode.testBit 31 || (modeIsRegular f.mode && isTypeIso f.name))
  ∧ fileinfoIsDir f = isoFileInfoIsDir f
  ∧ fileinfoIsRealDir f = isoFileInfoIsRealDir f
  ∧ fileinfoMode f = isoFileInfoMode f
  ∧ (modeIsRegular f.mode = true → isTypeIso f.name = true →
      isoFileInfoIsDir f = true ∧ isoFileInfoIsRealDir f = false)
  ∧ (modeIsDir f.mode = true →
      isoFileInfoIsDir f = true ∧ isoFileInfoIsRealDir f = true) := by
  refine ⟨rfl, rfl, ?_, ?_, rfl, rfl, rfl, ?_, ?_⟩
  · intro i hi
    unfold isoFileInfoMode
    by_cases hc : modeIsRegular f.mode && isTypeIso f.name
    · rw [if_pos hc, Nat.testBit_lor]
      have : modeDir.testBit i = false := by
        unfold modeDir
        rw [Nat.testBit_two_pow]
        simp [Ne.symm hi]
      rw [this, Bool.or_false]
    · rw [if_neg hc]
  · unfold isoFileInfoMode
    by_cases hc : modeIsRegular f.mode && isTypeIso f.name
    · rw [if_pos hc, Nat.testBit_lor, hc]
      have : modeDir.testBit 31 = true := by decide
      rw [this]
    · rw [if_neg hc]
      have : (modeIsRegular f.mode && isTypeIso f.name) = false := by
        simpa using hc
      rw [this, Bool.or_false]
  · intro hreg hiso
    refine ⟨by simp [isoFileInfoIsDir, hiso], ?_⟩
    rw [isoFileInfoIsRealDir, modeIsDir_testBit, modeIsRegular_dirBit f.mode hreg]
  · intro hdir
    exact ⟨by simp [isoFileInfoIsDir, hdir], hdir⟩

/-- Claim C4, witness: the amended rules at the regular file `disk.iso`
(mode `0o444`) and at nothing else; all hypotheses discharged concretely. -/
theorem fileInfo_adapter_rules_witness :
    isoFileInfoIsDir ⟨"disk.iso", 0o444⟩ = true ∧
    isoFileInfoIsRealDir ⟨"disk.iso", 0o444⟩ = false := by
  exact (fileInfo_adapter_rules ⟨"disk.iso", 0o444⟩).2.2.2.2.2.2.2.1
    (by decide) (by decide)

/-! ## Claim C1: the ISO chain scan of `MakeJoint`

`MakeJoint` (`pool.go`, and identically `part_010`) builds the chain of
IsoJoints over the residual local path with a cursor loop:

    var jpos = 0
    for {
      var p1 = strings.Index(localpath[jpos:], ".iso/")
      var p2 = strings.Index(localpath[jpos:], ".ISO/")
      if p1 == p2 { break }
      p = ...        // the non-negative one, or min of both
      var key = localpath[:p+4]
      ...Make(j, key)...
      j, jpos = jiso, p+5
    }
    if IsTypeIso(localpath[jpos:]) { ...one final IsoJoint with key localpath[jpos:]... }

The embedding extracts the sequence of constructed IsoJoint keys (assuming
every `IsoJoint.Make` succeeds, which is the path the claim describes). -/

/-- One iteration of the boundary-scan loop of `MakeJoint`: `none` when the
loop breaks (no further occurrence).  Note the source computes the key as
`localpath[:p+4]` and the next cursor as `p+5` with `p` *relative* to
`jpos`, exactly as written. -/
def makeJointStep (localpath : String) (jpos : Nat) : Option (String × Nat) :=
  let p1 := goIndex (strDrop localpath jpos) ".iso/"
  let p2 := goIndex (strDrop localpath jpos) ".ISO/"
  if p1 = p2 then none
  else
    let p := if p1 = -1 then p2 else if p2 = -1 then p1 else min p1 p2
    some (strTake localpath (p + 4).toNat, (p + 5).toNat)

/-- The scan loop of `MakeJoint`, run for at most `fuel` iterations:
returns the keys constructed so far (outermost first), the final cursor, and
whether the loop reached its break within the given fuel. -/
def makeJointScan (localpath : String) :
    Nat → Nat → List String → List String × Nat × Bool
  | 0, jpos, acc => (acc.reverse, jpos, false)
  | fuel + 1, jpos, acc =>
    match makeJointStep localpath jpos with
    | none => (acc.reverse, jpos, true)
    | some (key, jp2) => makeJointScan localpath fuel jp2 (key :: acc)

/-- The full sequence of IsoJoint keys `MakeJoint` constructs for a residual
local path (loop keys, plus the final wrap when the remainder ends with the
ISO suffix); `none` when the loop does not reach its break within `fuel`
iterations. -/
def makeJointKeys (fuel : Nat) (localpath : String) : Option (List String) :=
  match makeJointScan localpath fuel 0 [] with
  | (keys, jpos, true) =>
    if isTypeIso (strDrop localpath jpos) then
      some (keys ++ [strDrop localpath jpos])
    else some keys
  | (_, _, false) => none

/-- Modelled from the spec (chain-builder steps 5 and 6): at each boundary
the key is the segment of the residual path from the *current scan cursor*
up to and including `.iso`, and the cursor moves just past the separator. -/
def specChainStep (localpath : String) (jpos : Nat) : Option (String × Nat) :=
  let rest := strDrop localpath jpos
  let p1 := goIndex rest ".iso/"
  let p2 := goIndex rest ".ISO/"
  if p1 = -1 ∧ p2 = -1 then none
  else
    let p := if p1 = -1 then p2 else if p2 = -1 then p1 else min p1 p2
    some (strTake rest (p + 4).toNat, jpos + (p + 5).toNat)

/-- Modelled from the spec: the scan loop with per-cursor keys. -/
def specChainScan (localpath : String) :
    Nat → Nat → List String → List String × Nat × Bool
  | 0, jpos, acc => (acc.reverse, jpos, false)
  | fuel + 1, jpos, acc =>
    match specChainStep localpath jpos with
    | none => (acc.reverse, jpos, true)
    | some (key, jp2) => specChainScan localpath fuel jp2 (key :: acc)

/-- Modelled from the spec: the full key sequence of the chain builder. -/
def specChainKeys (fuel : Nat) (localpath : String) : Option (List String) :=
  match specChainScan localpath fuel 0 [] with
  | (keys, jpos, true) =>
    if isTypeIso (strDrop localpath jpos) then
      some (keys ++ [strDrop localpath jpos])
    else some keys
  | (_, _, false) => none

theorem makeJointStep_nested_fix :
    makeJointStep "a.iso/b.iso/c.iso" 6 = some ("a.iso", 6) := by decide

theorem makeJointScan_nested_stuck (fuel : Nat) (acc : List String) :
    (makeJointScan "a.iso/b.iso/c.iso" fuel 6 acc).2.2 = false := by
  induction fuel generalizing acc with
  | zero => rfl
  | succ n ih =>
    rw [makeJointScan, makeJointStep_nested_fix]
    exact ih _

/-- Claim C1: on the two-level example the chain and its keys are exactly as
claimed (Iso over Iso over Sys, keys `testdata/external.iso` then
`disk/internal.iso`), but the per-boundary key rule fails for residual paths
with two or more intermediate `.iso/` boundaries: on
`a.iso/b.iso/c.iso` the spec's scan yields keys `a.iso`, `b.iso`, `c.iso`,
while the code's second iteration again computes key `a.iso` (it slices the
key and the next cursor from the start of the path instead of from the scan
cursor) and the cursor returns to position 6 forever, so the loop never
reaches its break (`MakeJoint` only escapes because `IsoJoint.Make` then
fails on the wrong key). -/
theorem makeJoint_chain_bug :
    makeJointKeys 4 "testdata/external.iso/disk/internal.iso"
      = some ["testdata/external.iso", "disk/internal.iso"]
  ∧ specChainKeys 4 "testdata/external.iso/disk/internal.iso"
      = some ["testdata/external.iso", "disk/internal.iso"]
  ∧ specChainKeys 4 "a.iso/b.iso/c.iso" = some ["a.iso", "b.iso", "c.iso"]
  ∧ makeJointScan "a.iso/b.iso/c.iso" 2 0 [] = (["a.iso", "a.iso"], 6, false)
  ∧ (∀ fuel : Nat, makeJointKeys fuel "a.iso/b.iso/c.iso" = none) := by
  refine ⟨by decide, by decide, by decide, by decide, ?_⟩
  intro fuel
  cases fuel with
  | zero => rfl
  | succ n =>
    have h1 : makeJointScan "a.iso/b.iso/c.iso" (n + 1) 0 []
        = makeJointScan "a.iso/b.iso/c.iso" n 6 ["a.iso"] := by
      have h0 : makeJointStep "a.iso/b.iso/c.iso" 0 = some ("a.iso", 6) := by
        decide
      rw [makeJointScan, h0]
    have h2 := makeJointScan_nested_stuck n ["a.iso"]
    unfold makeJointKeys
    rw [h1]
    rcases hscan : makeJointScan "a.iso/b.iso/c.iso" n 6 ["a.iso"] with
      ⟨keys, jpos, fin⟩
    rw [hscan] at h2
    simp only at h2
    subst h2
    rfl

/-! ## Joint state records and operations

Each back-end joint is embedded as a record of the fields its operations
read and write.  Protocol collaborators (FTP/SFTP servers, the ISO image
walker) appear as explicit parameters: a directory listing delivered by the
server, or a path-resolution oracle.  Return values carry the Go error (if
any), and `Handle` records what was returned as the `fs.File` handle. -/

/-- What an `Open` call returned as the file handle. -/
inductive Handle where
  | self
  | nofile
  deriving DecidableEq, Repr

/-- The shared bounded-pagination block of `ReadDir` (`iso.go`, `dav.go`,
`ftp.go`, `part_000`): clamp `n`, flag EOF when a bounded request exceeds
the remaining entries, slice from the read cursor, advance it. -/
def paginate (files : List GoEntry) (rdn : Nat) (n : Int) :
    List GoEntry × Nat × Bool :=
  let rem : Int := (files.length : Int) - (rdn : Int)
  let pr : Int × Bool :=
    if n < 0 then (rem, false)
    else if n > rem then (rem, true)
    else (n, false)
  if pr.1 ≤ 0 then ([], rdn, pr.2)
  else ((files.drop rdn).take pr.1.toNat, rdn + pr.1.toNat, pr.2)

/-- `FtpJoint` state (`ftp.go`): control connection, open inner path
(empty means idle), cached listing, in-flight data stream, byte cursor,
cached end offset, listing read cursor. -/
structure FtpState where
  conn : Option Unit
  path : String
  entries : Option (List GoEntry)
  rc : Option Unit
  pos : Int
  fend : Int
  rdn : Nat
  deriving DecidableEq, Repr

def ftpBusy (s : FtpState) : Bool := s.path ≠ ""

/-- `FtpJoint.Open` (`ftp.go`): guard on `Busy`, record the path, drop the
previous listing, restart the listing cursor. -/
def ftpOpen (s : FtpState) (fpath : String) :
    Option GoErr × Handle × FtpState :=
  if ftpBusy s then (some .errExist, .nofile, s)
  else (none, .self, { s with path := fpath, entries := none, rdn := 0 })

/-- `FtpJoint.Close` (`ftp.go`): clear the path, release the data stream,
reset cursor and cached end.  The cached listing and its cursor are not
touched. -/
def ftpClose (s : FtpState) : FtpState :=
  { s with path := "", rc := none, pos := 0, fend := 0 }

/-- The first-call listing fetch of `FtpJoint.ReadDir` (`ftp.go`): the
listing is stored, then the first two entries are dropped as `.` and `..`;
listings shorter than two entries fail with `io.ErrUnexpectedEOF` (and stay
cached unstripped). -/
def ftpFetch (server : List GoEntry) : Option GoErr × List GoEntry :=
  if server.length < 2 then (some .errUnexpectedEOF, server)
  else (none, server.drop 2)

/-- `FtpJoint.ReadDir` (`ftp.go`): fetch-and-strip on first call, then
paginate the cached listing. -/
def ftpReadDir (s : FtpState) (server : List GoEntry) (n : Int) :
    List GoEntry × Option GoErr × FtpState :=
  match s.entries with
  | none =>
    match ftpFetch server with
    | (some e, cached) => ([], some e, { s with entries := some cached })
    | (none, cached) =>
      let out := paginate cached s.rdn n
      (out.1, if out.2.2 then some .errEOF else none,
        { s with entries := some cached, rdn := out.2.1 })
  | some cached =>
    let out := paginate cached s.rdn n
    (out.1, if out.2.2 then some .errEOF else none,
      { s with rdn := out.2.1 })

/-- The `.`/`..` compaction loop of `FtpJoint.ReadDir` in `part_000`:
remove every entry named `.` or `..`, keeping the rest in order. -/
def stripDots : List GoEntry → List GoEntry
  | [] => []
  | e :: rest =>
    if e.name = "." ∨ e.name = ".." then stripDots rest
    else e :: stripDots rest

/-- `FtpJoint.ReadDir` of `part_000`: close any in-flight stream, fetch and
name-filter the listing on first call, cache it, paginate. -/
def ftpReadDirP0 (s : FtpState) (server : List GoEntry) (n : Int) :
    List GoEntry × Option GoErr × FtpState :=
  let s1 := { s with rc := none }
  let cached := match s1.entries with
    | some l => l
    | none => stripDots server
  let out := paginate cached s1.rdn n
  (out.1, if out.2.2 then some .errEOF else none,
    { s1 with entries := some cached, rdn := out.2.1 })

/-- `FtpJoint.Cleanup` of `part_000`: close the inner file if busy, quit the
connection if still present, nil it out, join the sub-errors. -/
def ftpCleanupP0 (s : FtpState) : Option GoErr × FtpState :=
  let s1 := if ftpBusy s then ftpClose s else s
  match s1.conn with
  | some _ => (none, { s1 with conn := none })
  | none => (none, s1)

/-- `DavJoint` state (`dav.go`). -/
structure DavState where
  client : Option Unit
  path : String
  files : Option (List GoEntry)
  rc : Option Unit
  pos : Int
  fend : Int
  rdn : Nat
  deriving DecidableEq, Repr

def davBusy (s : DavState) : Bool := s.path ≠ ""

/-- `DavJoint.Open` (`dav.go`). -/
def davOpen (s : DavState) (fpath : String) :
    Option GoErr × Handle × DavState :=
  if davBusy s then (some .errExist, .nofile, s)
  else (none, .self, { s with path := fpath, files := none, rdn := 0 })

/-- `DavJoint.Close` (`dav.go`): like `FtpJoint.Close`, the buffered listing
and its cursor survive. -/
def davClose (s : DavState) : DavState :=
  { s with path := "", rc := none, pos := 0, fend := 0 }

/-- `DavJoint.ReadDir` (`dav.go`): fetch on first call, cache, paginate. -/
def davReadDir (s : DavState) (server : List GoEntry) (n : Int) :
    List GoEntry × Option GoErr × DavState :=
  let cached := match s.files with
    | some l => l
    | none => server
  let out := paginate cached s.rdn n
  (out.1, if out.2.2 then some .errEOF else none,
    { s with files := some cached, rdn := out.2.1 })

/-- `IsoJoint` state (`iso.go`): current open record, section reader over
its extent, listing read cursor. -/
structure IsoState where
  file : Option GoEntry
  sr : Option Unit
  rdn : Nat
  deriving DecidableEq, Repr

def isoBusy (s : IsoState) : Bool := s.file.isSome

/-- `IsoJoint.Open` (`iso.go`): guard on `Busy`, normalize `.` to the root,
resolve through `OpenFile` (abstracted as the `resolve` oracle over the
image), install the record and its reader, restart the listing cursor. -/
def isoOpen (resolve : String → Except GoErr GoEntry) (s : IsoState)
    (fpath : String) : Option GoErr × Handle × IsoState :=
  if isoBusy s then (some .errExist, .nofile, s)
  else
    let fp := if fpath = "." then "" else fpath
    match resolve fp with
    | .error e => (some e, .nofile, { s with file := none })
    | .ok f => (none, .self, { s with file := some f, sr := some (), rdn := 0 })

/-- `IsoJoint.Close` (`iso.go`): drop the record and the reader; the listing
cursor is not reset (the next `Open` does that). -/
def isoClose (s : IsoState) : IsoState :=
  { s with file := none, sr := none }

/-- `IsoJoint.ReadDir` (`iso.go`): children of the current record (delivered
by the image walker), paginated by the cursor. -/
def isoReadDir (s : IsoState) (children : List GoEntry) (n : Int) :
    List GoEntry × Option GoErr × IsoState :=
  let out := paginate children s.rdn n
  (out.1, if out.2.2 then some .errEOF else none, { s with rdn := out.2.1 })

/-- `SftpJoint` state (`sftp.go` and `part_004`): working directory, open
path, inner file handle, and (in `part_004` only) cached listing and
cursor. -/
structure SftpState where
  pwd : String
  path : String
  file : Option Unit
  files : Option (List GoEntry)
  rdn : Nat
  deriving DecidableEq, Repr

def sftpBusy (s : SftpState) : Bool := s.file.isSome

/-- `SftpJoint.Open` of `sftp.go`: no `Busy` guard — the path is recorded
and the remote open replaces the inner handle unconditionally. -/
def sftpOpenV0 (client : String → Except GoErr Unit) (s : SftpState)
    (fpath : String) : Option GoErr × Handle × SftpState :=
  let s1 := { s with path := fpath }
  match client (joinPath s.pwd fpath) with
  | .error e => (some e, .nofile, { s1 with file := none })
  | .ok _ => (none, .self, { s1 with file := some () })

/-- `SftpJoint.ReadDir` of `sftp.go`: refetch the server listing on every
call and truncate at index `n`; no caching, no cursor, no EOF error. -/
def takeToIdx (n : Int) : Nat → List GoEntry → List GoEntry
  | _, [] => []
  | i, e :: rest =>
    if (i : Int) = n then [] else e :: takeToIdx n (i + 1) rest

def sftpReadDirV0 (server : List GoEntry) (n : Int) :
    List GoEntry × Option GoErr :=
  (takeToIdx n 0 server, none)

/-- `SftpJoint.Open` of `part_004`: with the `Busy` guard and the listing
reset. -/
def sftpOpenV1 (client : String → Except GoErr Unit) (s : SftpState)
    (fpath : String) : Option GoErr × Handle × SftpState :=
  if sftpBusy s then (some .errExist, .nofile, s)
  else
    let s1 := { s with path := fpath }
    match client (joinPath s.pwd fpath) with
    | .error e => (some e, .nofile, { s1 with file := none })
    | .ok _ => (none, .self, { s1 with file := some (), files := none, rdn := 0 })

/-- `SftpJoint.ReadDir` of `part_004`: on the first call fetch the listing
via `client.ReadDir(JoinPath(j.pwd, j.path))` (the `server` oracle) and
cache it in `files`; every call then runs the shared pagination block over
`rdn`. -/
def sftpReadDirV1 (s : SftpState) (server : List GoEntry) (n : Int) :
    List GoEntry × Option GoErr × SftpState :=
  let cached := match s.files with
    | some l => l
    | none => server
  let out := paginate cached s.rdn n
  (out.1, if out.2.2 then some .errEOF else none,
    { s with files := some cached, rdn := out.2.1 })

/-- `SysJoint` state (`part_011`): base directory and open OS file. -/
structure SysState where
  dir : String
  file : Option Unit
  deriving DecidableEq, Repr

def sysBusy (s : SysState) : Bool := s.file.isSome

/-- `SysJoint.Open`, guarded variant of `part_011`. -/
def sysOpenV1 (osOpen : String → Except GoErr Unit) (s : SysState)
    (fpath : String) : Option GoErr × Handle × SysState :=
  if sysBusy s then (some .errExist, .nofile, s)
  else
    match osOpen (joinPath s.dir fpath) with
    | .error e => (some e, .nofile, { s with file := none })
    | .ok _ => (none, .self, { s with file := some () })

/-- `IsoJoint` lifecycle state for `Cleanup` (`iso.go`): `base` is the owned
base joint reference that `Cleanup` nils out, `file` the open record. -/
structure IsoCleanState where
  base : Option Unit
  file : Option GoEntry
  deriving DecidableEq, Repr

/-- `IsoJoint.Cleanup` (`iso.go`): close the inner file if busy, then call
`j.Base.Cleanup()` and nil out the base.  When `Base` is already nil (the
state after a previous successful `Cleanup`), the method call on the nil
interface is a runtime panic, modelled as `none`. -/
def isoCleanup (s : IsoCleanState) :
    Option (Option GoErr × IsoCleanState) :=
  let s1 := if s.file.isSome then { s with file := none } else s
  match s1.base with
  | none => none
  | some _ => some (none, { s1 with base := none })

/-! ## Claim C8: Cleanup order, aggregation and idempotence -/

/-- Claim C8: the first `Cleanup` on a busy `IsoJoint` closes the inner file
and tears down the base, but a second `Cleanup` on the already-cleaned joint
finds `Base == nil` and the method call on the nil interface panics
(modelled as `none`) instead of completing normally; the `part_000`
`FtpJoint.Cleanup`, by contrast, nils its connection out and is idempotent
after the first success. -/
theorem isoCleanup_second_call_panics :
    isoCleanup { base := some (), file := some ⟨"docs/doc2.txt", 0o444⟩ }
      = some (none, { base := none, file := none })
  ∧ isoCleanup { base := none, file := none } = none
  ∧ (∀ s : FtpState,
        (ftpCleanupP0 (ftpCleanupP0 s).2).1 = none
      ∧ (ftpCleanupP0 (ftpCleanupP0 s).2).2 = (ftpCleanupP0 s).2) := by
  refine ⟨rfl, rfl, ?_⟩
  intro s
  unfold ftpCleanupP0 ftpClose ftpBusy
  by_cases h : s.path = "" <;> cases hc : s.conn <;> simp [h, hc]

/-! ## Claim C7: the frame of Close -/

/-- A concrete busy `FtpJoint` state with a buffered listing, a data stream
in flight and nonzero cursors. -/
def ftpBusySample : FtpState :=
  { conn := some (), path := "d", entries := some [⟨"a", 0⟩],
    rc := some (), pos := 7, fend := 9, rdn := 1 }

/-- Claim C7, counterexample: `FtpJoint.Close` does not clear the buffered
directory listing nor its read cursor — they survive until the next `Open`. -/
theorem ftpClose_keeps_listing :
    (ftpClose ftpBusySample).entries = some [⟨"a", 0⟩]
  ∧ (ftpClose ftpBusySample).rdn = 1 := by
  exact ⟨rfl, rfl⟩

/-- Claim C7, amended: after `Close` the byte cursor and the cached end
offset are 0, the stream handle is released and the open path is cleared,
while the connection is untouched; the buffered directory listing and its
read cursor are *not* cleared by `Close` — the next `Open` on the same
joint clears them, succeeds, and leaves the connection as it was. -/
theorem close_frame_rules :
    (∀ s : FtpState,
        (ftpClose s).pos = 0 ∧ (ftpClose s).fend = 0
      ∧ (ftpClose s).rc = none ∧ (ftpClose s).path = ""
      ∧ (ftpClose s).conn = s.conn
      ∧ (ftpClose s).entries = s.entries ∧ (ftpClose s).rdn = s.rdn)
  ∧ (∀ s : DavState,
        (davClose s).pos = 0 ∧ (davClose s).fend = 0
      ∧ (davClose s).rc = none ∧ (davClose s).path = ""
      ∧ (davClose s).client = s.client
      ∧ (davClose s).files = s.files ∧ (davClose s).rdn = s.rdn)
  ∧ (∀ s : IsoState,
        (isoClose s).file = none ∧ (isoClose s).sr = none
      ∧ (isoClose s).rdn = s.rdn)
  ∧ (∀ (s : FtpState) (f : String),
        (ftpOpen (ftpClose s) f).1 = none
      ∧ (ftpOpen (ftpClose s) f).2.1 = Handle.self
      ∧ (ftpOpen (ftpClose s) f).2.2.conn = s.conn
      ∧ (ftpOpen (ftpClose s) f).2.2.entries = none
      ∧ (ftpOpen (ftpClose s) f).2.2.rdn = 0)
  ∧ (∀ (s : DavState) (f : String),
        (davOpen (davClose s) f).1 = none
      ∧ (davOpen (davClose s) f).2.2.client = s.client
      ∧ (davOpen (davClose s) f).2.2.files = none
      ∧ (davOpen (davClose s) f).2.2.rdn = 0) := by
  refine ⟨fun s => ⟨rfl, rfl, rfl, rfl, rfl, rfl, rfl⟩,
    fun s => ⟨rfl, rfl, rfl, rfl, rfl, rfl, rfl⟩,
    fun s => ⟨rfl, rfl, rfl⟩, fun s f => ?_, fun s f => ?_⟩
  · have hb : ftpBusy (ftpClose s) = false := by
      unfold ftpBusy ftpClose
      simp
    unfold ftpOpen
    rw [hb]
    exact ⟨rfl, rfl, rfl, rfl, rfl⟩
  · have hb : davBusy (davClose s) = false := by
      unfold davBusy davClose
      simp
    unfold davOpen
    rw [hb]
    exact ⟨rfl, rfl, rfl, rfl⟩

/-! ## Claim C3: the Busy guard of Open -/

/-- Claim C3, counterexample: `SftpJoint.Open` of `sftp.go` has no `Busy`
guard — on a busy joint it succeeds, returns the joint as the handle, and
replaces the recorded path, instead of failing with `fs.ErrExist` and
leaving the open inner file alone. -/
def sftpBusySample : SftpState :=
  { pwd := "", path := "a", file := some (), files := none, rdn := 0 }

def sftpAfterSample : SftpState :=
  { pwd := "", path := "b", file := some (), files := none, rdn := 0 }

theorem sftpOpen_busy_not_guarded :
    sftpBusy sftpBusySample = true
  ∧ sftpOpenV0 (fun _ => Except.ok ()) sftpBusySample "b"
      = (none, Handle.self, sftpAfterSample) := by
  exact ⟨rfl, rfl⟩

/-- Claim C3, amended: for `IsoJoint`, `FtpJoint` (`ftp.go`), `DavJoint`,
the guarded `SftpJoint` of `part_004` and the guarded `SysJoint` of
`part_011`, `Open` on a busy joint fails with `fs.ErrExist` and leaves the
state (hence the open inner file) unchanged, and a successful `Open` returns
the joint itself as the handle with `Busy` then true (for the path-based
`FtpJoint`/`DavJoint` the opened path must be nonempty for `Busy` to report
true).  The `sftp.go` `SftpJoint.Open` is exempt: it performs no guard. -/
theorem open_busy_guard :
    (∀ (res : String → Except GoErr GoEntry) (s : IsoState) (f : String),
        isoBusy s = true → isoOpen res s f = (some .errExist, .nofile, s))
  ∧ (∀ (res : String → Except GoErr GoEntry) (s : IsoState) (f : String)
        (g : GoEntry), isoBusy s = false →
        res (if f = "." then "" else f) = .ok g →
        isoOpen res s f
          = (none, .self, { s with file := some g, sr := some (), rdn := 0 })
      ∧ isoBusy (isoOpen res s f).2.2 = true)
  ∧ (∀ (s : FtpState) (f : String), ftpBusy s = true →
        ftpOpen s f = (some .errExist, .nofile, s))
  ∧ (∀ (s : FtpState) (f : String), ftpBusy s = false → f ≠ "" →
        ftpOpen s f
          = (none, .self, { s with path := f, entries := none, rdn := 0 })
      ∧ ftpBusy (ftpOpen s f).2.2 = true)
  ∧ (∀ (s : DavState) (f : String), davBusy s = true →
        davOpen s f = (some .errExist, .nofile, s))
  ∧ (∀ (s : DavState) (f : String), davBusy s = false → f ≠ "" →
        davOpen s f
          = (none, .self, { s with path := f, files := none, rdn := 0 })
      ∧ davBusy (davOpen s f).2.2 = true)
  ∧ (∀ (cl : String → Except GoErr Unit) (s : SftpState) (f : String),
        sftpBusy s = true → sftpOpenV1 cl s f = (some .errExist, .nofile, s))
  ∧ (∀ (cl : String → Except GoErr Unit) (s : SftpState) (f : String),
        sftpBusy s = false → cl (joinPath s.pwd f) = .ok () →
        sftpOpenV1 cl s f
          = (none, .self,
            { s with path := f, file := some (), files := none, rdn := 0 })
      ∧ sftpBusy (sftpOpenV1 cl s f).2.2 = true)
  ∧ (∀ (os : String → Except GoErr Unit) (s : SysState) (f : String),
        sysBusy s = true → sysOpenV1 os s f = (some .errExist, .nofile, s))
  ∧ (∀ (os : String → Except GoErr Unit) (s : SysState) (f : String),
        sysBusy s = false → os (joinPath s.dir f) = .ok () →
        sysOpenV1 os s f = (none, .self, { s with file := some () })
      ∧ sysBusy (sysOpenV1 os s f).2.2 = true) := by
  refine ⟨?_, ?_, ?_, ?_, ?_, ?_, ?_, ?_, ?_, ?_⟩
  · intro res s f hb
    simp [isoOpen, hb]
  · intro res s f g hb hr
    have hb2 : s.file.isSome = false := hb
    refine ⟨by simp [isoOpen, hb, hr], ?_⟩
    simp [isoOpen, isoBusy, hb2, hr]
  · intro s f hb
    simp [ftpOpen, hb]
  · intro s f hb hf
    have hb2 : s.path = "" := by simpa [ftpBusy] using hb
    refine ⟨by simp [ftpOpen, hb], ?_⟩
    simp [ftpOpen, ftpBusy, hb2, hf]
  · intro s f hb
    simp [davOpen, hb]
  · intro s f hb hf
    have hb2 : s.path = "" := by simpa [davBusy] using hb
    refine ⟨by simp [davOpen, hb], ?_⟩
    simp [davOpen, davBusy, hb2, hf]
  · intro cl s f hb
    simp [sftpOpenV1, hb]
  · intro cl s f hb hr
    have hb2 : s.file.isSome = false := hb
    refine ⟨by simp [sftpOpenV1, hb, hr], ?_⟩
    simp [sftpOpenV1, sftpBusy, hb2, hr]
  · intro os s f hb
    simp [sysOpenV1, hb]
  · intro os s f hb hr
    have hb2 : s.file.isSome = false := hb
    refine ⟨by simp [sysOpenV1, hb, hr], ?_⟩
    simp [sysOpenV1, sysBusy, hb2, hr]

def ftpBusySample2 : FtpState :=
  { conn := some (), path := "a", entries := none, rc := none,
    pos := 0, fend := 0, rdn := 0 }

def isoIdleSample : IsoState := { file := none, sr := none, rdn := 3 }

def isoFoxResolver : String → Except GoErr GoEntry :=
  fun _ => Except.ok ⟨"fox.txt", 0o444⟩

/-- Claim C3, witness: the amended rules at concrete states — a busy
`FtpJoint` refuses to open, and an idle `IsoJoint` opens successfully. -/
theorem open_busy_guard_witness :
    ftpOpen ftpBusySample2 "b" = (some .errExist, .nofile, ftpBusySample2)
  ∧ isoOpen isoFoxResolver isoIdleSample "fox.txt"
      = (none, .self,
        { file := some ⟨"fox.txt", 0o444⟩, sr := some (), rdn := 0 }) := by
  exact ⟨open_busy_guard.2.2.1 ftpBusySample2 "b" rfl,
    (open_busy_guard.2.1 isoFoxResolver isoIdleSample "fox.txt"
      ⟨"fox.txt", 0o444⟩ rfl rfl).1⟩

/-! ## Claim C5: ReadDir pagination and the EOF rule -/

theorem paginate_neg (files : List GoEntry) (rdn : Nat) (n : Int)
    (h : n < 0) :
    paginate files rdn n
      = (files.drop rdn, rdn + (files.drop rdn).length, false) := by
  simp only [paginate, if_pos h]
  by_cases hr : ((files.length : Int) - (rdn : Int)) ≤ 0
  · rw [if_pos hr]
    have hlen : files.length ≤ rdn := by omega
    have hdrop : files.drop rdn = [] := List.drop_eq_nil_of_le hlen
    rw [hdrop]
    simp
  · rw [if_neg hr]
    have htn : ((files.length : Int) - (rdn : Int)).toNat
        = files.length - rdn := by omega
    have hlen2 : (files.drop rdn).length = files.length - rdn :=
      List.length_drop rdn files
    rw [htn, ← hlen2, List.take_length]

theorem paginate_nonneg (files : List GoEntry) (rdn : Nat) (n : Int)
    (h : 0 ≤ n) :
    (paginate files rdn n).1.length = min n.toNat (files.length - rdn)
  ∧ (paginate files rdn n).2.1 = rdn + (paginate files rdn n).1.length
  ∧ ((paginate files rdn n).2.2 = true ↔ (files.length : Int) - rdn < n) := by
  have hn : ¬ n < 0 := by omega
  simp only [paginate, if_neg hn]
  by_cases hgt : n > (files.length : Int) - (rdn : Int)
  · rw [if_pos hgt]
    dsimp only
    by_cases hr : ((files.length : Int) - (rdn : Int)) ≤ 0
    · rw [if_pos hr]
      dsimp only
      refine ⟨?_, ?_, ?_⟩
      · simp only [List.length_nil]
        all_goals omega
      · simp only [List.length_nil]
        all_goals omega
      · exact ⟨fun _ => by omega, fun _ => rfl⟩
    · rw [if_neg hr]
      dsimp only
      refine ⟨?_, ?_, ?_⟩
      · simp only [List.length_take, List.length_drop]
        all_goals omega
      · simp only [List.length_take, List.length_drop]
        all_goals omega
      · exact ⟨fun _ => by omega, fun _ => rfl⟩
  · rw [if_neg hgt]
    dsimp only
    by_cases hz : n ≤ 0
    · rw [if_pos hz]
      dsimp only
      refine ⟨?_, ?_, ?_⟩
      · simp only [List.length_nil]
        all_goals omega
      · simp only [List.length_nil]
        all_goals omega
      · exact ⟨fun hh => absurd hh (by simp), fun hh => absurd hh (by omega)⟩
    · rw [if_neg hz]
      dsimp only
      refine ⟨?_, ?_, ?_⟩
      · simp only [List.length_take, List.length_drop]
      · simp only [List.length_take, List.length_drop]
        all_goals omega
      · exact ⟨fun hh => absurd hh (by simp), fun hh => absurd hh (by omega)⟩

/-- Claim C5, counterexample: `SftpJoint.ReadDir` of `sftp.go` does not
buffer, paginate, or signal EOF — a bounded request for 5 entries on a
2-entry directory returns the 2 entries with a nil error, where the claim
requires the EOF error. -/
theorem sftpReadDir_no_eof :
    sftpReadDirV0 [⟨"a", 0⟩, ⟨"b", 0⟩] 5 = ([⟨"a", 0⟩, ⟨"b", 0⟩], none)
  ∧ ((2 : Int) < 5) := by
  exact ⟨rfl, by decide⟩

/-- Claim C5, amended: for the buffering implementations (`IsoJoint`,
`DavJoint` on the first call and on every later call, `FtpJoint` once the
listing is cached, and the `part_004` `SftpJoint` on the first call and on
every later call): `ReadDir(n)` with `n < 0` returns all remaining entries
without error; with `n ≥ 0` it returns `min(n, remaining)` entries,
advances the read cursor by exactly that many, and flags EOF exactly when
`n` exceeds the remaining count.  On a first call the freshly fetched
listing is cached and paginated; later calls paginate the cache.  The
`sftp.go` `SftpJoint.ReadDir` is exempt: it refetches on every call,
truncates at `n`, and never returns EOF. -/
theorem readDir_pagination_rules :
    (∀ (files : List GoEntry) (rdn : Nat) (n : Int), n < 0 →
        paginate files rdn n
          = (files.drop rdn, rdn + (files.drop rdn).length, false))
  ∧ (∀ (files : List GoEntry) (rdn : Nat) (n : Int), 0 ≤ n →
        (paginate files rdn n).1.length = min n.toNat (files.length - rdn)
      ∧ (paginate files rdn n).2.1 = rdn + (paginate files rdn n).1.length
      ∧ ((paginate files rdn n).2.2 = true ↔
          (files.length : Int) - rdn < n))
  ∧ (∀ (s : IsoState) (children : List GoEntry) (n : Int),
        isoReadDir s children n
          = ((paginate children s.rdn n).1,
             if (paginate children s.rdn n).2.2 then some GoErr.errEOF
             else none,
             { s with rdn := (paginate children s.rdn n).2.1 }))
  ∧ (∀ (s : DavState) (server : List GoEntry) (n : Int) (l : List GoEntry),
        s.files = some l →
        davReadDir s server n
          = ((paginate l s.rdn n).1,
             if (paginate l s.rdn n).2.2 then some GoErr.errEOF else none,
             { s with files := some l, rdn := (paginate l s.rdn n).2.1 }))
  ∧ (∀ (s : FtpState) (server : List GoEntry) (n : Int) (l : List GoEntry),
        s.entries = some l →
        ftpReadDir s server n
          = ((paginate l s.rdn n).1,
             if (paginate l s.rdn n).2.2 then some GoErr.errEOF else none,
             { s with rdn := (paginate l s.rdn n).2.1 }))
  ∧ (∀ (s : DavState) (server : List GoEntry) (n : Int),
        s.files = none →
        davReadDir s server n
          = ((paginate server s.rdn n).1,
             if (paginate server s.rdn n).2.2 then some GoErr.errEOF
             else none,
             { s with files := some server,
                      rdn := (paginate server s.rdn n).2.1 }))
  ∧ (∀ (s : SftpState) (server : List GoEntry) (n : Int) (l : List GoEntry),
        s.files = some l →
        sftpReadDirV1 s server n
          = ((paginate l s.rdn n).1,
             if (paginate l s.rdn n).2.2 then some GoErr.errEOF else none,
             { s with files := some l, rdn := (paginate l s.rdn n).2.1 }))
  ∧ (∀ (s : SftpState) (server : List GoEntry) (n : Int),
        s.files = none →
        sftpReadDirV1 s server n
          = ((paginate server s.rdn n).1,
             if (paginate server s.rdn n).2.2 then some GoErr.errEOF
             else none,
             { s with files := some server,
                      rdn := (paginate server s.rdn n).2.1 })) := by
  refine ⟨paginate_neg, paginate_nonneg, fun s children n => rfl,
    ?_, ?_, ?_, ?_, ?_⟩
  · intro s server n l hs
    unfold davReadDir
    rw [hs]
  · intro s server n l hs
    unfold ftpReadDir
    rw [hs]
  · intro s server n hs
    unfold davReadDir
    rw [hs]
  · intro s server n l hs
    unfold sftpReadDirV1
    rw [hs]
  · intro s server n hs
    unfold sftpReadDirV1
    rw [hs]

/-- Claim C5, witness: the amended pagination laws at a concrete one-entry
listing — the clamped bounded case, the unbounded case, and a first
`part_004` `SftpJoint.ReadDir` call that caches and drains the fetched
listing — all hypotheses discharged. -/
theorem readDir_pagination_rules_witness :
    paginate [⟨"a", 0⟩] 0 (-1) = ([⟨"a", 0⟩], 1, false)
  ∧ (paginate [⟨"a", 0⟩] 0 3).1.length = 1
  ∧ sftpReadDirV1 sftpBusySample [⟨"a", 0⟩] (-1)
      = ([⟨"a", 0⟩], none, { sftpBusySample with files := some [⟨"a", 0⟩], rdn := 1 }) := by
  refine ⟨readDir_pagination_rules.1 [⟨"a", 0⟩] 0 (-1) (by decide), ?_, ?_⟩
  · rw [(readDir_pagination_rules.2.1 [⟨"a", 0⟩] 0 3 (by decide)).1]
    decide
  · rw [readDir_pagination_rules.2.2.2.2.2.2.2 sftpBusySample [⟨"a", 0⟩] (-1) rfl]
    decide

/-! ## Claim C9: the dot-entry filtering of FtpJoint.ReadDir -/

/-- A fresh busy `FtpJoint` with no cached listing. -/
def ftpFreshSample : FtpState :=
  { conn := some (), path := "d", entries := none, rc := none,
    pos := 0, fend := 0, rdn := 0 }

/-- Claim C9, counterexample: the `ftp.go` `FtpJoint.ReadDir` drops the
first two entries of the listing unconditionally — on a server listing
`x, y, z` with no `.`/`..` pseudo-entries it returns only `z` (name-exact
filtering would keep all three), and on a one-entry listing it fails with
`io.ErrUnexpectedEOF`. -/
theorem ftpReadDir_strips_blindly :
    (ftpReadDir ftpFreshSample [⟨"x", 0⟩, ⟨"y", 0⟩, ⟨"z", 0⟩] (-1)).1
      = [⟨"z", 0⟩]
  ∧ stripDots [⟨"x", 0⟩, ⟨"y", 0⟩, ⟨"z", 0⟩]
      = [⟨"x", 0⟩, ⟨"y", 0⟩, ⟨"z", 0⟩]
  ∧ (ftpReadDir ftpFreshSample [⟨"x", 0⟩] (-1)).2.1
      = some GoErr.errUnexpectedEOF := by
  exact ⟨by decide, by decide, by decide⟩

/-- Claim C9, amended: the `part_000` `FtpJoint.ReadDir` filters the fetched
listing by name — it removes exactly the entries named `.` or `..`, keeps
every other entry in order (for every listing, including ones where the
pseudo-entries are absent or not first), caches the filtered listing on the
first call, and paginates it on subsequent calls ignoring the server; the
`ftp.go` variant instead drops the first two entries unconditionally and
fails with `io.ErrUnexpectedEOF` on listings shorter than two. -/
theorem ftp_filter_rules :
    (∀ l : List GoEntry,
        stripDots l = l.filter (fun e => !(e.name = "." || e.name = "..")))
  ∧ (∀ (s : FtpState) (server : List GoEntry) (n : Int),
        s.entries = none →
        ftpReadDirP0 s server n
          = ((paginate (stripDots server) s.rdn n).1,
             if (paginate (stripDots server) s.rdn n).2.2
             then some GoErr.errEOF else none,
             { s with rc := none, entries := some (stripDots server), rdn := (paginate (stripDots server) s.rdn n).2.1 }))
  ∧ (∀ (s : FtpState) (sv1 sv2 : List GoEntry) (n : Int)
        (l : List GoEntry), s.entries = some l →
        ftpReadDirP0 s sv1 n = ftpReadDirP0 s sv2 n) := by
  refine ⟨?_, ?_, ?_⟩
  · intro l
    induction l with
    | nil => rfl
    | cons e rest ih =>
      by_cases h : e.name = "." ∨ e.name = ".."
      · rcases h with h1 | h1 <;>
          simp [stripDots, h1, List.filter_cons, ih]
      · obtain ⟨hn1, hn2⟩ := not_or.mp h
        simp [stripDots, h, hn1, hn2, List.filter_cons, ih]
  · intro s server n hs
    unfold ftpReadDirP0
    rw [hs]
  · intro s sv1 sv2 n l hs
    unfold ftpReadDirP0
    rw [hs]

/-- Claim C9, witness: the amended filtering at a concrete listing where
`..` sits in the middle and `.` is absent, and a concrete cached state. -/
theorem ftp_filter_rules_witness :
    stripDots [⟨"x", 0⟩, ⟨"..", 0⟩, ⟨"y", 0⟩]
      = List.filter (fun e => !(e.name = "." || e.name = ".."))
          [⟨"x", 0⟩, ⟨"..", 0⟩, ⟨"y", 0⟩]
  ∧ ftpReadDirP0 ftpBusySample [⟨"q", 0⟩] 1
      = ftpReadDirP0 ftpBusySample [] 1 := by
  exact ⟨ftp_filter_rules.1 [⟨"x", 0⟩, ⟨"..", 0⟩, ⟨"y", 0⟩],
    ftp_filter_rules.2.2 ftpBusySample [⟨"q", 0⟩] [] 1 [⟨"a", 0⟩] rfl⟩

/-! ## Claim C2: the JointCache invariant

`JointCache` (`joint.go`) keeps two index-aligned sequences — idle joints
(`cache`) and their expiration timers (`expire`) — under one mutex.  Joints
and timers are identified by `Nat` ids; the `Busy` state of every joint in
the system is a map carried in the state.  Each public operation is one
step; `Get`/`Open` check a joint out (the checked-out joint is outside the
cache, so only the cache effect is modelled). -/

structure CacheState where
  idle : List Nat
  timers : List Nat
  busy : Nat → Bool

/-- `JointCache.Pop`: stop and drop the head timer, pop the head joint. -/
def cachePop (s : CacheState) : Option Nat × CacheState :=
  match s.idle with
  | [] => (none, s)
  | j :: rest => (some j, { s with idle := rest, timers := s.timers.tail })

/-- `JointCache.Put`: no-op when the joint is already present, else append
the joint and arm a fresh timer. -/
def cachePut (s : CacheState) (j tid : Nat) : CacheState :=
  if j ∈ s.idle then s
  else { s with idle := s.idle ++ [j], timers := s.timers ++ [tid] }

/-- `JointCache.Eject`: stop the aligned timer and remove both entries. -/
def cacheEject (s : CacheState) (j : Nat) : CacheState :=
  if j ∈ s.idle then
    { s with idle := s.idle.eraseIdx (s.idle.indexOf j), timers := s.timers.eraseIdx (s.idle.indexOf j) }
  else s

/-- `JointCache.Close`: stop every timer, clean every joint, reset both
sequences to nil. -/
def cacheClose (s : CacheState) : CacheState :=
  { s with idle := [], timers := [] }

/-- The `time.AfterFunc` callback armed by `Put`: pop the head entry and
clean the popped joint (which is outside the cache afterwards). -/
def cacheTimerFire (s : CacheState) : CacheState := (cachePop s).2

/-- `JointWrap.Close`: the joint's own `Close` (after which it is not
busy), then `Put` back into the bound cache. -/
def cacheWrapClose (s : CacheState) (j tid : Nat) : CacheState :=
  cachePut { s with busy := fun x => if x = j then false else s.busy x } j tid

/-- `JointCache.Get`: `Pop`, or construct a fresh joint outside the cache
(the cache state is unchanged on a miss). -/
def cacheGet (s : CacheState) : CacheState := (cachePop s).2

/-- `JointCache.Open` when the borrowed joint's `Open` fails with NotExist:
the joint (popped, or freshly made on a miss) is still healthy and is
returned with `Put`. -/
def cacheOpenNotExist (s : CacheState) (jfresh tid : Nat) : CacheState :=
  match cachePop s with
  | (some j, s1) => cachePut s1 j tid
  | (none, s1) => cachePut s1 jfresh tid

/-- `JointCache.Open` on success (or on a non-NotExist failure, where the
joint is cleaned up and dropped): the joint stays out of the cache. -/
def cacheOpenSuccess (s : CacheState) : CacheState := (cachePop s).2

/-- The operations of the claim, one constructor each. -/
inductive CacheOp where
  | pop
  | put (j tid : Nat)
  | eject (j : Nat)
  | close
  | timerFire
  | wrapClose (j tid : Nat)
  | get
  | openNotExist (jfresh tid : Nat)
  | openSuccess

def cacheStep : CacheOp → CacheState → CacheState
  | .pop, s => (cachePop s).2
  | .put j tid, s => cachePut s j tid
  | .eject j, s => cacheEject s j
  | .close, s => cacheClose s
  | .timerFire, s => cacheTimerFire s
  | .wrapClose j tid, s => cacheWrapClose s j tid
  | .get, s => cacheGet s
  | .openNotExist jf tid, s => cacheOpenNotExist s jf tid
  | .openSuccess, s => cacheOpenSuccess s

/-- Call-site condition: a joint handed to a bare `Put`, and a fresh joint
returned after a NotExist `Open` failure, is not busy (in the source every
such joint just ran `Close` or a failed guarded `Open`). -/
def cacheOpOK : CacheOp → CacheState → Prop
  | .put j _, s => s.busy j = false
  | .openNotExist jf _, s => s.busy jf = false
  | _, _ => True

/-- The claimed invariant: `Count() == len(idle) == len(timers)`, no joint
appears twice in the idle sequence, and every idle joint is not busy. -/
def cacheInv (s : CacheState) : Prop :=
  s.idle.length = s.timers.length ∧ s.idle.Nodup
  ∧ ∀ j ∈ s.idle, s.busy j = false

theorem cachePop_inv (s : CacheState) (h : cacheInv s) :
    cacheInv (cachePop s).2 := by
  obtain ⟨hlen, hnd, hbz⟩ := h
  cases hs : s.idle with
  | nil =>
    have he : (cachePop s).2 = s := by
      unfold cachePop
      rw [hs]
    rw [he]
    exact ⟨hlen, hnd, hbz⟩
  | cons j rest =>
    have he : (cachePop s).2
        = { s with idle := rest, timers := s.timers.tail } := by
      unfold cachePop
      rw [hs]
    rw [he]
    rw [hs] at hlen hnd hbz
    simp only [List.length_cons] at hlen
    refine ⟨?_, hnd.of_cons, ?_⟩
    · dsimp only
      rw [List.length_tail]
      omega
    · intro x hx
      exact hbz x (List.mem_cons_of_mem j hx)

theorem cachePut_inv (s : CacheState) (j tid : Nat) (h : cacheInv s)
    (hj : s.busy j = false) : cacheInv (cachePut s j tid) := by
  obtain ⟨hlen, hnd, hbz⟩ := h
  unfold cachePut
  by_cases hmem : j ∈ s.idle
  · rw [if_pos hmem]
    exact ⟨hlen, hnd, hbz⟩
  · rw [if_neg hmem]
    refine ⟨?_, ?_, ?_⟩
    · dsimp only
      rw [List.length_append, List.length_append, hlen]
      rfl
    · dsimp only
      rw [List.nodup_append]
      exact ⟨hnd, List.nodup_singleton j,
        fun x hx hxj => hmem ((List.mem_singleton.mp hxj) ▸ hx)⟩
    · intro x hx
      dsimp only at hx ⊢
      rcases List.mem_append.mp hx with hx1 | hx2
      · exact hbz x hx1
      · rw [List.mem_singleton.mp hx2]
        exact hj

theorem cacheEject_inv (s : CacheState) (j : Nat) (h : cacheInv s) :
    cacheInv (cacheEject s j) := by
  obtain ⟨hlen, hnd, hbz⟩ := h
  unfold cacheEject
  by_cases hmem : j ∈ s.idle
  · rw [if_pos hmem]
    have hidx : s.idle.indexOf j < s.idle.length :=
      List.indexOf_lt_length.mpr hmem
    refine ⟨?_, ?_, ?_⟩
    · dsimp only
      rw [List.length_eraseIdx, List.length_eraseIdx,
        if_pos hidx, if_pos (hlen ▸ hidx), hlen]
    · exact hnd.sublist (List.eraseIdx_sublist s.idle (s.idle.indexOf j))
    · intro x hx
      dsimp only at hx
      exact hbz x
        ((List.eraseIdx_sublist s.idle (s.idle.indexOf j)).subset hx)
  · rw [if_neg hmem]
    exact ⟨hlen, hnd, hbz⟩

/-- Claim C2: every cache operation — `Get`, `Pop`, `Put`, `Eject`, `Open`
(in each of its outcomes), `Close`, the joint-wrapper `Close` and the
idle-expiration timer callback — preserves the `JointCache` invariant:
the idle and timer sequences have equal length (`Count()` equals both), no
joint appears twice in the idle sequence, and every idle joint is not busy
(for the bare `Put` of an arbitrary joint this relies on the call-site
condition that the joint being returned is not busy, which holds at every
`Put` call in the source since the joint just ran `Close` or a failed
guarded `Open`). -/
theorem jointCache_invariant (op : CacheOp) (s : CacheState)
    (h : cacheInv s) (hok : cacheOpOK op s) :
    cacheInv (cacheStep op s) := by
  cases op with
  | pop => exact cachePop_inv s h
  | put j tid => exact cachePut_inv s j tid h hok
  | eject j => exact cacheEject_inv s j h
  | close =>
    exact ⟨rfl, List.nodup_nil, fun j hj => absurd hj (List.not_mem_nil j)⟩
  | timerFire => exact cachePop_inv s h
  | wrapClose j tid =>
    have h2 : cacheInv { s with busy := fun x => if x = j then false else s.busy x } := by
      obtain ⟨hlen, hnd, hbz⟩ := h
      refine ⟨hlen, hnd, ?_⟩
      intro x hx
      by_cases hxj : x = j <;> simp [hxj, hbz x hx]
    exact cachePut_inv _ j tid h2 (by simp)
  | get => exact cachePop_inv s h
  | openNotExist jf tid =>
    show cacheInv (cacheOpenNotExist s jf tid)
    unfold cacheOpenNotExist
    have hinv1 := cachePop_inv s h
    cases hs : s.idle with
    | nil =>
      have he : cachePop s = (none, s) := by
        unfold cachePop
        rw [hs]
      rw [he]
      rw [he] at hinv1
      exact cachePut_inv s jf tid hinv1 hok
    | cons a rest =>
      have he : cachePop s
          = (some a, { s with idle := rest, timers := s.timers.tail }) := by
        unfold cachePop
        rw [hs]
      rw [he]
      rw [he] at hinv1
      obtain ⟨hlen, hnd, hbz⟩ := h
      exact cachePut_inv _ a tid hinv1
        (hbz a (hs ▸ List.mem_cons_self a rest))
  | openSuccess => exact cachePop_inv s h

/-- Claim C2, witness: the invariant is preserved at a concrete state and
operation — returning joint 5 to a cache already holding joint 3. -/
theorem jointCache_invariant_witness :
    cacheInv (cacheStep (CacheOp.put 5 9)
      { idle := [3], timers := [7], busy := fun _ => false }) := by
  refine jointCache_invariant (CacheOp.put 5 9)
    { idle := [3], timers := [7], busy := fun _ => false } ⟨rfl, ?_, ?_⟩ rfl
  · exact List.nodup_singleton 3
  · intro j hj
    rfl

/-! ## Claim C6: SplitKey and its round-trip law -/

/-- `SplitUrl` (`pool.go`): split at the first `://`, then at the first `/`
of the remainder. -/
def splitUrl (urlpath : String) : String × String :=
  let i := goIndex urlpath "://"
  if i ≠ -1 then
    let j := goIndex (strDrop urlpath (i.toNat + 3)) "/"
    if j ≠ -1 then
      (strTake urlpath (i.toNat + 3 + j.toNat), strDrop urlpath (i.toNat + 3 + j.toNat + 1))
    else (urlpath, "")
  else ("", urlpath)

/-- `SplitKey` (`pool.go`): an ISO-terminated path is a whole key;
otherwise cut at the last `.iso/` or `.ISO/` boundary; otherwise
`http(s)` paths go through the WebDAV root-discovery probe `GetDavPath`
(a live-server collaborator, passed in as a parameter); otherwise split
as a URL. -/
def splitKey (davPath : String → String × String × Bool)
    (fullpath : String) : String × String :=
  if isTypeIso fullpath then (fullpath, "")
  else
    let p := max (goLastIndex fullpath ".iso/") (goLastIndex fullpath ".ISO/")
    if p ≠ -1 then
      (strTake fullpath (p + 4).toNat, strDrop fullpath (p + 5).toNat)
    else if goHasPrefix fullpath "http://" || goHasPrefix fullpath "https://" then
      ((davPath fullpath).1, (davPath fullpath).2.1)
    else splitUrl fullpath

/-- A stand-in for `GetDavPath`, never consulted on the inputs of the
theorems below (none of them is http-prefixed). -/
def davStub : String → String × String × Bool := fun _ => ("", "", false)

/-- Does `pat` occur anywhere in `s`?  (Hypothesis form for the amended
round-trip.) -/
def containsSub (s pat : String) : Bool := (firstIdx s.data pat.data).isSome

/-- Claim C6, counterexample: the round-trip fails when the tail itself
contains an ISO boundary — the splitter cuts at the *last* boundary, so
with key `a.iso` and tail `b.iso/c.txt` it returns
`("a.iso/b.iso", "c.txt")`, not `("a.iso", "b.iso/c.txt")`. -/
theorem splitKey_roundtrip_fails :
    isTypeIso "a.iso" = true
  ∧ splitKey davStub ("a.iso" ++ "/" ++ "b.iso/c.txt")
      = ("a.iso/b.iso", "c.txt") := by
  exact ⟨by decide, by decide⟩

/-- Claim C6: the concrete example — the composite FTP URL splits into the
full nested-ISO key and the inner residual. -/
theorem splitKey_ftp_example :
    splitKey davStub "ftp://u:p@h:21/a/external.iso/disk/internal.iso/d/doc1.txt"
      = ("ftp://u:p@h:21/a/external.iso/disk/internal.iso", "d/doc1.txt") := by
  decide

/-! Characterizations of the scanning primitives, used by the amended
round-trip proof. -/

theorem isPrefixOf_iff_exists (p l : List Char) :
    p.isPrefixOf l = true ↔ ∃ t, p ++ t = l := by
  induction p generalizing l with
  | nil =>
    simp [List.isPrefixOf]
  | cons a ps ih =>
    cases l with
    | nil =>
      simp [List.isPrefixOf]
    | cons b ls =>
      rw [List.isPrefixOf, Bool.and_eq_true, beq_iff_eq, ih]
      constructor
      · rintro ⟨hab, t, ht⟩
        exact ⟨t, by rw [List.cons_append, hab, ht]⟩
      · rintro ⟨t, ht⟩
        rw [List.cons_append] at ht
        injection ht with h1 h2
        exact ⟨h1, t, h2⟩

theorem firstIdx_none_iff (s pat : List Char) :
    firstIdx s pat = none
      ↔ ∀ i : Nat, pat.isPrefixOf (s.drop i) = false := by
  induction s with
  | nil =>
    cases pat with
    | nil => simp [firstIdx, List.isPrefixOf]
    | cons c cs =>
      simp [firstIdx, List.isPrefixOf]
  | cons a t ih =>
    rw [firstIdx]
    by_cases hp : pat.isPrefixOf (a :: t) = true
    · rw [if_pos hp]
      simp only [reduceCtorEq, false_iff, not_forall]
      refine ⟨0, ?_⟩
      rw [List.drop_zero, hp]
      simp
    · rw [if_neg hp]
      constructor
      · intro hn i
        cases i with
        | zero =>
          rw [List.drop_zero]
          cases hq : pat.isPrefixOf (a :: t) with
          | false => rfl
          | true => exact absurd hq hp
        | succ m =>
          have hnone : firstIdx t pat = none := by
            cases hf : firstIdx t pat with
            | none => rfl
            | some v =>
              rw [hf] at hn
              simp at hn
          exact (ih.mp hnone) m
      · intro hall
        have hnone : firstIdx t pat = none :=
          ih.mpr (fun i => by
            have := hall (i + 1)
            rwa [List.drop_succ_cons] at this)
        rw [hnone]
        rfl

theorem firstIdx_eq_some (s pat : List Char) (i0 : Nat)
    (hocc : pat.isPrefixOf (s.drop i0) = true)
    (hbelow : ∀ j : Nat, j < i0 → pat.isPrefixOf (s.drop j) = false) :
    firstIdx s pat = some i0 := by
  induction s generalizing i0 with
  | nil =>
    have hpn : pat = [] := by
      cases pat with
      | nil => rfl
      | cons c cs =>
        rw [List.drop_nil] at hocc
        exact absurd hocc (by simp [List.isPrefixOf])
    subst hpn
    have hz : i0 = 0 := by
      by_contra hne
      have := hbelow 0 (by omega)
      rw [List.drop_nil] at this
      exact absurd this (by decide)
    subst hz
    rfl
  | cons a t ih =>
    cases i0 with
    | zero =>
      rw [List.drop_zero] at hocc
      rw [firstIdx, if_pos hocc]
    | succ m =>
      have h0 : pat.isPrefixOf (a :: t) = false := by
        have := hbelow 0 (by omega)
        rwa [List.drop_zero] at this
      rw [firstIdx, if_neg (by rw [h0]; exact Bool.false_ne_true)]
      have hrec : firstIdx t pat = some m := by
        apply ih m
        · rwa [List.drop_succ_cons] at hocc
        · intro j hj
          have := hbelow (j + 1) (by omega)
          rwa [List.drop_succ_cons] at this
      rw [hrec]
      rfl

theorem lastIdxAux_eq (s pat : List Char) (i0 : Nat)
    (hocc : pat.isPrefixOf (s.drop i0) = true)
    (habove : ∀ j : Nat, i0 < j → pat.isPrefixOf (s.drop j) = false) :
    ∀ n : Nat, i0 ≤ n → lastIdxAux s pat n = (i0 : Int) := by
  intro n
  induction n with
  | zero =>
    intro hn
    have h0 : i0 = 0 := by omega
    subst h0
    rw [List.drop_zero] at hocc
    rw [lastIdxAux, if_pos hocc]
    rfl
  | succ m ih =>
    intro hn
    rw [lastIdxAux]
    by_cases hp : pat.isPrefixOf (s.drop (m + 1)) = true
    · rw [if_pos hp]
      have he : i0 = m + 1 := by
        by_contra hne
        have hlt : i0 < m + 1 := by omega
        have := habove (m + 1) hlt
        rw [hp] at this
        exact Bool.true_eq_false ▸ this
      rw [he]
    · rw [if_neg hp]
      have hi : i0 ≤ m := by
        by_contra hgt
        have he : i0 = m + 1 := by omega
        rw [he] at hocc
        exact hp hocc
      exact ih hi

theorem lastIdxAux_lt (s pat : List Char) (m : Nat)
    (habove : ∀ j : Nat, m ≤ j → pat.isPrefixOf (s.drop j) = false) :
    ∀ n : Nat, lastIdxAux s pat n < (m : Int) := by
  intro n
  induction n with
  | zero =>
    rw [lastIdxAux]
    by_cases hp : pat.isPrefixOf s = true
    · rw [if_pos hp]
      have : ¬ m ≤ 0 := by
        intro hm
        have := habove 0 hm
        rw [List.drop_zero, hp] at this
        exact Bool.true_eq_false ▸ this
      omega
    · rw [if_neg hp]
      omega
  | succ k ih =>
    rw [lastIdxAux]
    by_cases hp : pat.isPrefixOf (s.drop (k + 1)) = true
    · rw [if_pos hp]
      have : ¬ m ≤ k + 1 := by
        intro hm
        have := habove (k + 1) hm
        rw [hp] at this
        exact Bool.true_eq_false ▸ this
      omega
    · rw [if_neg hp]
      exact ih

theorem lastIdxAux_ge (s pat : List Char) :
    ∀ n : Nat, (-1 : Int) ≤ lastIdxAux s pat n := by
  intro n
  induction n with
  | zero =>
    rw [lastIdxAux]
    by_cases hp : pat.isPrefixOf s = true
    · rw [if_pos hp]
      omega
    · rw [if_neg hp]
  | succ k ih =>
    rw [lastIdxAux]
    by_cases hp : pat.isPrefixOf (s.drop (k + 1)) = true
    · rw [if_pos hp]
      omega
    · rw [if_neg hp]
      exact ih

/-- The separator between key and tail falls inside any 4-character window
that straddles it, so no slash-free 4-character pattern can match there. -/
theorem no_slash_window (kd td p t : List Char) (m j : Nat)
    (hm : ∀ d : Nat, d < m → p[d]? ≠ some '/')
    (hmp : m ≤ p.length)
    (hj2 : j ≤ kd.length) (hlt : kd.length < j + m)
    (heq : p ++ t = (kd ++ '/' :: td).drop j) : False := by
  have hdrop : (kd ++ '/' :: td).drop j = kd.drop j ++ '/' :: td :=
    List.drop_append_of_le_length hj2
  rw [hdrop] at heq
  have hlen2 : (kd.drop j).length = kd.length - j := List.length_drop j kd
  have e1 : (kd.drop j ++ '/' :: td)[kd.length - j]? = some '/' := by
    rw [List.getElem?_append_right (le_of_eq hlen2)]
    rw [hlen2, Nat.sub_self]
    simp
  rw [← heq] at e1
  rw [List.getElem?_append, if_pos (by omega)] at e1
  exact hm (kd.length - j) (by omega) e1

theorem fullData (k tail : String) :
    (k ++ "/" ++ tail).data = k.data ++ '/' :: tail.data := by
  rw [stringData_append, stringData_append, List.append_assoc]
  rfl

theorem isTypeIso_true_elim (s : String) (h : isTypeIso s = true) :
    4 ≤ s.data.length
  ∧ (s.data.drop (s.data.length - 4) = (".iso" : String).data
     ∨ s.data.drop (s.data.length - 4) = (".ISO" : String).data) := by
  unfold isTypeIso at h
  by_cases hl : s.data.length < 4
  · rw [if_pos hl] at h
    exact absurd h Bool.false_ne_true
  · rw [if_neg hl] at h
    refine ⟨by omega, ?_⟩
    rcases of_decide_eq_true h with h2 | h2
    · exact Or.inl (congrArg String.data h2)
    · exact Or.inr (congrArg String.data h2)

theorem isTypeIso_of_suffix (s : String) (h4 : 4 ≤ s.data.length)
    (h : s.data.drop (s.data.length - 4) = (".iso" : String).data
       ∨ s.data.drop (s.data.length - 4) = (".ISO" : String).data) :
    isTypeIso s = true := by
  unfold isTypeIso
  rw [if_neg (by omega)]
  apply decide_eq_true
  rcases h with h | h
  · exact Or.inl (String.ext h)
  · exact Or.inr (String.ext h)

theorem containsSub_false_elim (s pat : String)
    (h : containsSub s pat = false) : firstIdx s.data pat.data = none := by
  unfold containsSub at h
  cases hf : firstIdx s.data pat.data with
  | none => rfl
  | some v =>
    rw [hf] at h
    exact absurd h (by simp)

/-- Above the key/tail boundary no ISO-boundary pattern can occur: a window
that straddles the separator would need a `/` among the pattern's first four
characters, and an occurrence fully inside the tail is excluded by
hypothesis. -/
theorem full_no_occ_above (k tail : String) (pd : List Char)
    (hpd : pd = (".iso/" : String).data ∨ pd = (".ISO/" : String).data)
    (hcs : firstIdx tail.data pd = none) :
    ∀ j : Nat, k.data.length - 4 < j →
      pd.isPrefixOf ((k.data ++ '/' :: tail.data).drop j) = false := by
  intro j hj
  cases hq : pd.isPrefixOf ((k.data ++ '/' :: tail.data).drop j) with
  | false => rfl
  | true =>
    exfalso
    obtain ⟨t, ht⟩ := (isPrefixOf_iff_exists pd _).mp hq
    by_cases hjk : j ≤ k.data.length
    · refine no_slash_window k.data tail.data pd t 4 j ?_ ?_ hjk ?_ ht
      · intro d hd
        rcases hpd with h | h <;> subst h <;> interval_cases d <;> decide
      · rcases hpd with h | h <;> subst h <;> decide
      · omega
    · have hsplit : k.data ++ '/' :: tail.data
          = (k.data ++ ['/']) ++ tail.data := by
        rw [List.append_assoc]
        rfl
      have hlen : (k.data ++ ['/']).length = k.data.length + 1 := by
        rw [List.length_append]
        rfl
      have hj2 : j = (k.data ++ ['/']).length + (j - k.data.length - 1) := by
        omega
      rw [hsplit, hj2, List.drop_append] at hq
      have hz := (firstIdx_none_iff tail.data pd).mp hcs (j - k.data.length - 1)
      rw [hz] at hq
      exact Bool.false_ne_true hq

/-- Appending `"/" ++ tail` to a key never creates an ISO-typed full path
when the tail itself is not ISO-typed. -/
theorem isTypeIso_concat_false (k tail : String)
    (h3 : isTypeIso tail = false) :
    isTypeIso (k ++ "/" ++ tail) = false := by
  cases hq : isTypeIso (k ++ "/" ++ tail) with
  | false => rfl
  | true =>
    exfalso
    obtain ⟨h4, hsuf⟩ := isTypeIso_true_elim _ hq
    rw [fullData] at h4 hsuf
    have hN : (k.data ++ '/' :: tail.data).length
        = k.data.length + 1 + tail.data.length := by
      rw [List.length_append, List.length_cons]
      omega
    rw [hN] at h4 hsuf
    by_cases htl : 4 ≤ tail.data.length
    · -- the window lies inside the tail: the tail would be ISO-typed
      have hsplit : k.data ++ '/' :: tail.data
          = (k.data ++ ['/']) ++ tail.data := by
        rw [List.append_assoc]
        rfl
      have hlen : (k.data ++ ['/']).length = k.data.length + 1 := by
        rw [List.length_append]
        rfl
      have hj2 : k.data.length + 1 + tail.data.length - 4
          = (k.data ++ ['/']).length + (tail.data.length - 4) := by
        omega
      rw [hsplit, hj2, List.drop_append] at hsuf
      have : isTypeIso tail = true :=
        isTypeIso_of_suffix tail htl hsuf
      rw [h3] at this
      exact Bool.false_ne_true this
    · -- the window straddles the separator
      have hj2 : k.data.length + 1 + tail.data.length - 4 ≤ k.data.length := by
        omega
      rcases hsuf with hs | hs
      · refine no_slash_window k.data tail.data (".iso" : String).data [] 4
          (k.data.length + 1 + tail.data.length - 4) ?_ ?_ hj2 ?_ ?_
        · intro d hd
          interval_cases d <;> decide
        · decide
        · omega
        · rw [List.append_nil]
          exact hs.symm
      · refine no_slash_window k.data tail.data (".ISO" : String).data [] 4
          (k.data.length + 1 + tail.data.length - 4) ?_ ?_ hj2 ?_ ?_
        · intro d hd
          interval_cases d <;> decide
        · decide
        · omega
        · rw [List.append_nil]
          exact hs.symm

/-- Round-trip for ISO-suffixed keys, under the amended hypotheses. -/
theorem splitKey_roundtrip_iso (dav : String → String × String × Bool)
    (k tail : String) (hk : isTypeIso k = true)
    (h1 : containsSub tail ".iso/" = false)
    (h2 : containsSub tail ".ISO/" = false)
    (h3 : isTypeIso tail = false) :
    splitKey dav (k ++ "/" ++ tail) = (k, tail) := by
  obtain ⟨hk4, hsuf⟩ := isTypeIso_true_elim k hk
  have hfull := fullData k tail
  have hN : (k.data ++ '/' :: tail.data).length
      = k.data.length + 1 + tail.data.length := by
    rw [List.length_append, List.length_cons]
    omega
  have h1c := containsSub_false_elim tail ".iso/" h1
  have h2c := containsSub_false_elim tail ".ISO/" h2
  have hab1 := full_no_occ_above k tail (".iso/" : String).data (Or.inl rfl) h1c
  have hab2 := full_no_occ_above k tail (".ISO/" : String).data (Or.inr rfl) h2c
  have hiso : isTypeIso (k ++ "/" ++ tail) = false :=
    isTypeIso_concat_false k tail h3
  have hdropk : (k.data ++ '/' :: tail.data).drop (k.data.length - 4)
      = k.data.drop (k.data.length - 4) ++ '/' :: tail.data :=
    List.drop_append_of_le_length (by omega)
  have hmax : max (goLastIndex (k ++ "/" ++ tail) ".iso/")
      (goLastIndex (k ++ "/" ++ tail) ".ISO/")
      = ((k.data.length - 4 : Nat) : Int) := by
    unfold goLastIndex
    rw [hfull]
    rcases hsuf with hs | hs
    · have hocc : (".iso/" : String).data.isPrefixOf
          ((k.data ++ '/' :: tail.data).drop (k.data.length - 4)) = true := by
        apply (isPrefixOf_iff_exists _ _).mpr
        refine ⟨tail.data, ?_⟩
        rw [hdropk, hs]
        rfl
      have e1 := lastIdxAux_eq (k.data ++ '/' :: tail.data)
        (".iso/" : String).data (k.data.length - 4) hocc hab1
        (k.data ++ '/' :: tail.data).length (by omega)
      have e2 := lastIdxAux_lt (k.data ++ '/' :: tail.data)
        (".ISO/" : String).data (k.data.length - 4 + 1)
        (fun j hj => hab2 j (by omega)) (k.data ++ '/' :: tail.data).length
      rw [e1]
      apply max_eq_left
      omega
    · have hocc : (".ISO/" : String).data.isPrefixOf
          ((k.data ++ '/' :: tail.data).drop (k.data.length - 4)) = true := by
        apply (isPrefixOf_iff_exists _ _).mpr
        refine ⟨tail.data, ?_⟩
        rw [hdropk, hs]
        rfl
      have e1 := lastIdxAux_eq (k.data ++ '/' :: tail.data)
        (".ISO/" : String).data (k.data.length - 4) hocc hab2
        (k.data ++ '/' :: tail.data).length (by omega)
      have e2 := lastIdxAux_lt (k.data ++ '/' :: tail.data)
        (".iso/" : String).data (k.data.length - 4 + 1)
        (fun j hj => hab1 j (by omega)) (k.data ++ '/' :: tail.data).length
      rw [e1]
      apply max_eq_right
      omega
  have hne : ((k.data.length - 4 : Nat) : Int) ≠ -1 := by omega
  have ht4 : (((k.data.length - 4 : Nat) : Int) + 4).toNat = k.data.length := by
    omega
  have ht5 : (((k.data.length - 4 : Nat) : Int) + 5).toNat
      = k.data.length + 1 := by
    omega
  have hTake : strTake (k ++ "/" ++ tail) k.data.length = k := by
    apply String.ext
    show (k ++ "/" ++ tail).data.take k.data.length = k.data
    rw [hfull]
    exact List.take_left k.data ('/' :: tail.data)
  have hDrop : strDrop (k ++ "/" ++ tail) (k.data.length + 1) = tail := by
    apply String.ext
    show (k ++ "/" ++ tail).data.drop (k.data.length + 1) = tail.data
    rw [hfull]
    have hsplit : k.data ++ '/' :: tail.data
        = (k.data ++ ['/']) ++ tail.data := by
      rw [List.append_assoc]
      rfl
    have hlen : (k.data ++ ['/']).length = k.data.length + 1 := by
      rw [List.length_append]
      rfl
    rw [hsplit, ← hlen]
    exact List.drop_left _ _
  simp only [splitKey]
  rw [if_neg (by rw [hiso]; exact Bool.false_ne_true)]
  rw [hmax, if_pos hne, ht4, ht5, hTake, hDrop]

/-- For a key that is not ISO-typed and contains no ISO boundary, the
composite `key ++ "/" ++ tail` contains no ISO boundary at all (when the
tail is also clean). -/
theorem prefix_of_append_left (p l1 l2 t : List Char)
    (h : p ++ t = l1 ++ l2) (hl : p.length ≤ l1.length) :
    ∃ t2, p ++ t2 = l1 := by
  have h2 := congrArg (List.take p.length) h
  rw [List.take_append_of_le_length (Nat.le_refl p.length), List.take_length,
    List.take_append_of_le_length hl] at h2
  refine ⟨l1.drop p.length, ?_⟩
  nth_rewrite 1 [h2]
  exact List.take_append_drop p.length l1

theorem full_no_occ_all (k tail : String) (pd : List Char)
    (hpd : pd = (".iso/" : String).data ∨ pd = (".ISO/" : String).data)
    (hk1 : firstIdx k.data pd = none)
    (hk3 : isTypeIso k = false)
    (hcs : firstIdx tail.data pd = none) :
    ∀ j : Nat, pd.isPrefixOf ((k.data ++ '/' :: tail.data).drop j) = false := by
  intro j
  by_cases hj : k.data.length - 4 < j
  · exact full_no_occ_above k tail pd hpd hcs j hj
  · cases hq : pd.isPrefixOf ((k.data ++ '/' :: tail.data).drop j) with
    | false => rfl
    | true =>
      exfalso
      obtain ⟨t, ht⟩ := (isPrefixOf_iff_exists pd _).mp hq
      have hjk : j ≤ k.data.length := by omega
      have hdrop : (k.data ++ '/' :: tail.data).drop j
          = k.data.drop j ++ '/' :: tail.data :=
        List.drop_append_of_le_length hjk
      rw [hdrop] at ht
      have hlen5 : pd.length = 5 := by
        rcases hpd with h | h <;> subst h <;> rfl
      have hdl : (k.data.drop j).length = k.data.length - j :=
        List.length_drop j k.data
      by_cases hj5 : j + 5 ≤ k.data.length
      · -- the window lies fully inside the key
        obtain ⟨t2, ht2⟩ := prefix_of_append_left pd (k.data.drop j)
          ('/' :: tail.data) t ht (by omega)
        have hocc : pd.isPrefixOf (k.data.drop j) = true :=
          (isPrefixOf_iff_exists _ _).mpr ⟨t2, ht2⟩
        have hz := (firstIdx_none_iff k.data pd).mp hk1 j
        rw [hz] at hocc
        exact Bool.false_ne_true hocc
      · by_cases hj4 : k.data.length = j + 4
        · -- the window covers exactly the last four key characters
          have hdl4 : (k.data.drop j).length = 4 := by omega
          have h2 := congrArg (List.take 4) ht
          rw [List.take_append_of_le_length (by omega : 4 ≤ pd.length),
            List.take_append_of_le_length (by omega : 4 ≤ (k.data.drop j).length)]
            at h2
          have h3 : (k.data.drop j).take 4 = k.data.drop j := by
            rw [← hdl4, List.take_length]
          have h4 : k.data.drop j = pd.take 4 := (h2.trans h3).symm
          have hjq : k.data.length - 4 = j := by omega
          have : isTypeIso k = true := by
            apply isTypeIso_of_suffix k (by omega)
            rcases hpd with h | h <;> subst h
            · refine Or.inl ?_
              rw [hjq, h4]
              rfl
            · refine Or.inr ?_
              rw [hjq, h4]
              rfl
          rw [hk3] at this
          exact Bool.false_ne_true this
        · -- the window straddles the separator
          refine no_slash_window k.data tail.data pd t 4 j ?_ (by omega) hjk
            (by omega) ?_
          · intro d hd
            rcases hpd with h | h <;> subst h <;> interval_cases d <;> decide
          · rw [hdrop]
            exact ht

theorem schemeData (sch auth tail : String) :
    ((sch ++ auth) ++ "/" ++ tail).data
      = sch.data ++ (auth.data ++ '/' :: tail.data) := by
  rw [fullData, stringData_append, List.append_assoc]

/-- `SplitUrl` on a well-formed remote key: the key is scheme plus
slash-free authority, the remainder follows the first `/`. -/
theorem splitUrl_key (sch auth tail : String)
    (hsch : sch = "ftp://" ∨ sch = "sftp://")
    (hslash : '/' ∉ auth.data) :
    splitUrl ((sch ++ auth) ++ "/" ++ tail) = (sch ++ auth, tail) := by
  have hfd := schemeData sch auth tail
  have hkl : (sch ++ auth).data.length = sch.data.length + auth.data.length := by
    rw [stringData_append, List.length_append]
  have hTake : strTake ((sch ++ auth) ++ "/" ++ tail)
      (sch.data.length + auth.data.length) = sch ++ auth := by
    apply String.ext
    show ((sch ++ auth) ++ "/" ++ tail).data.take
      (sch.data.length + auth.data.length) = (sch ++ auth).data
    rw [fullData, ← hkl, List.take_left]
  have hDrop : strDrop ((sch ++ auth) ++ "/" ++ tail)
      (sch.data.length + auth.data.length + 1) = tail := by
    apply String.ext
    show ((sch ++ auth) ++ "/" ++ tail).data.drop
      (sch.data.length + auth.data.length + 1) = tail.data
    rw [fullData]
    have hsplit : (sch ++ auth).data ++ '/' :: tail.data
        = ((sch ++ auth).data ++ ['/']) ++ tail.data := by
      rw [List.append_assoc]
      rfl
    have hlen : ((sch ++ auth).data ++ ['/']).length
        = sch.data.length + auth.data.length + 1 := by
      rw [List.length_append, hkl]
      rfl
    rw [hsplit, ← hlen]
    exact List.drop_left _ _
  have hsld : ("/" : String).data = ['/'] := rfl
  have hj : firstIdx (auth.data ++ '/' :: tail.data) ("/" : String).data
      = some auth.data.length := by
    apply firstIdx_eq_some
    · rw [List.drop_left, hsld]
      simp [List.isPrefixOf]
    · intro j2 hj2
      cases hq : ("/" : String).data.isPrefixOf
          ((auth.data ++ '/' :: tail.data).drop j2) with
      | false => rfl
      | true =>
        exfalso
        obtain ⟨t, ht⟩ := (isPrefixOf_iff_exists _ _).mp hq
        rw [List.drop_append_of_le_length (by omega), hsld] at ht
        have h0 : (auth.data.drop j2 ++ '/' :: tail.data)[0]? = some '/' := by
          rw [← ht]
          simp
        rw [List.getElem?_append,
          if_pos (by rw [List.length_drop]; omega : 0 < (auth.data.drop j2).length)]
          at h0
        exact hslash ((List.drop_sublist j2 auth.data).subset
          (List.getElem?_mem h0))
  rcases hsch with hs | hs <;> subst hs
  · have hftpd : ("ftp://" : String).data = ['f', 't', 'p', ':', '/', '/'] :=
      rfl
    have hcold : ("://" : String).data = [':', '/', '/'] := rfl
    have hi : firstIdx (("ftp://" ++ auth) ++ "/" ++ tail).data
        ("://" : String).data = some 3 := by
      rw [hfd, hftpd, hcold]
      apply firstIdx_eq_some
      · simp [List.isPrefixOf]
      · intro j hj2
        interval_cases j <;> simp [List.isPrefixOf]
    have hgi : goIndex (("ftp://" ++ auth) ++ "/" ++ tail) "://" = 3 := by
      unfold goIndex
      rw [hi]
      rfl
    have hd6 : strDrop (("ftp://" ++ auth) ++ "/" ++ tail) 6
        = String.mk (auth.data ++ '/' :: tail.data) := by
      apply String.ext
      show (("ftp://" ++ auth) ++ "/" ++ tail).data.drop 6
        = auth.data ++ '/' :: tail.data
      rw [hfd]
      exact List.drop_left ("ftp://" : String).data _
    have hgj : goIndex (String.mk (auth.data ++ '/' :: tail.data)) "/"
        = (auth.data.length : Int) := by
      unfold goIndex
      have hmkd : (String.mk (auth.data ++ '/' :: tail.data)).data
          = auth.data ++ '/' :: tail.data := rfl
      rw [hmkd, hj]
    simp only [splitUrl, hgi]
    rw [if_pos (by decide : (3 : Int) ≠ -1)]
    have h63 : (3 : Int).toNat + 3 = 6 := rfl
    rw [h63, hd6, hgj]
    rw [if_pos (by omega : ((auth.data.length : Nat) : Int) ≠ -1)]
    have ha1 : 6 + ((auth.data.length : Nat) : Int).toNat
        = ("ftp://" : String).data.length + auth.data.length := by
      have h6 : ("ftp://" : String).data.length = 6 := rfl
      omega
    rw [ha1, hTake]
    have ha2 : ("ftp://" : String).data.length + auth.data.length + 1
        = ("ftp://" : String).data.length + auth.data.length + 1 := rfl
    rw [hDrop]
  · have hsftpd : ("sftp://" : String).data
        = ['s', 'f', 't', 'p', ':', '/', '/'] := rfl
    have hcold : ("://" : String).data = [':', '/', '/'] := rfl
    have hi : firstIdx (("sftp://" ++ auth) ++ "/" ++ tail).data
        ("://" : String).data = some 4 := by
      rw [hfd, hsftpd, hcold]
      apply firstIdx_eq_some
      · simp [List.isPrefixOf]
      · intro j hj2
        interval_cases j <;> simp [List.isPrefixOf]
    have hgi : goIndex (("sftp://" ++ auth) ++ "/" ++ tail) "://" = 4 := by
      unfold goIndex
      rw [hi]
      rfl
    have hd7 : strDrop (("sftp://" ++ auth) ++ "/" ++ tail) 7
        = String.mk (auth.data ++ '/' :: tail.data) := by
      apply String.ext
      show (("sftp://" ++ auth) ++ "/" ++ tail).data.drop 7
        = auth.data ++ '/' :: tail.data
      rw [hfd]
      exact List.drop_left ("sftp://" : String).data _
    have hgj : goIndex (String.mk (auth.data ++ '/' :: tail.data)) "/"
        = (auth.data.length : Int) := by
      unfold goIndex
      have hmkd : (String.mk (auth.data ++ '/' :: tail.data)).data
          = auth.data ++ '/' :: tail.data := rfl
      rw [hmkd, hj]
    simp only [splitUrl, hgi]
    rw [if_pos (by decide : (4 : Int) ≠ -1)]
    have h74 : (4 : Int).toNat + 3 = 7 := rfl
    rw [h74, hd7, hgj]
    rw [if_pos (by omega : ((auth.data.length : Nat) : Int) ≠ -1)]
    have ha1 : 7 + ((auth.data.length : Nat) : Int).toNat
        = ("sftp://" : String).data.length + auth.data.length := by
      have h7 : ("sftp://" : String).data.length = 7 := rfl
      omega
    rw [ha1, hTake]
    rw [hDrop]

/-- Round-trip for configured URL-prefix keys (`ftp://` / `sftp://`
scheme plus slash-free authority), under the amended hypotheses. -/
theorem splitKey_roundtrip_url (dav : String → String × String × Bool)
    (sch auth tail : String)
    (hsch : sch = "ftp://" ∨ sch = "sftp://")
    (hslash : '/' ∉ auth.data)
    (hk1 : containsSub (sch ++ auth) ".iso/" = false)
    (hk2 : containsSub (sch ++ auth) ".ISO/" = false)
    (hk3 : isTypeIso (sch ++ auth) = false)
    (h1 : containsSub tail ".iso/" = false)
    (h2 : containsSub tail ".ISO/" = false)
    (h3 : isTypeIso tail = false) :
    splitKey dav ((sch ++ auth) ++ "/" ++ tail) = (sch ++ auth, tail) := by
  have hiso : isTypeIso ((sch ++ auth) ++ "/" ++ tail) = false :=
    isTypeIso_concat_false (sch ++ auth) tail h3
  have hall1 := full_no_occ_all (sch ++ auth) tail (".iso/" : String).data
    (Or.inl rfl) (containsSub_false_elim _ _ hk1) hk3
    (containsSub_false_elim _ _ h1)
  have hall2 := full_no_occ_all (sch ++ auth) tail (".ISO/" : String).data
    (Or.inr rfl) (containsSub_false_elim _ _ hk2) hk3
    (containsSub_false_elim _ _ h2)
  have hlast1 : goLastIndex ((sch ++ auth) ++ "/" ++ tail) ".iso/" = -1 := by
    unfold goLastIndex
    rw [fullData]
    have hlt := lastIdxAux_lt ((sch ++ auth).data ++ '/' :: tail.data)
      (".iso/" : String).data 0 (fun j hj => hall1 j)
      ((sch ++ auth).data ++ '/' :: tail.data).length
    have hge := lastIdxAux_ge ((sch ++ auth).data ++ '/' :: tail.data)
      (".iso/" : String).data ((sch ++ auth).data ++ '/' :: tail.data).length
    omega
  have hlast2 : goLastIndex ((sch ++ auth) ++ "/" ++ tail) ".ISO/" = -1 := by
    unfold goLastIndex
    rw [fullData]
    have hlt := lastIdxAux_lt ((sch ++ auth).data ++ '/' :: tail.data)
      (".ISO/" : String).data 0 (fun j hj => hall2 j)
      ((sch ++ auth).data ++ '/' :: tail.data).length
    have hge := lastIdxAux_ge ((sch ++ auth).data ++ '/' :: tail.data)
      (".ISO/" : String).data ((sch ++ auth).data ++ '/' :: tail.data).length
    omega
  have hh1 : goHasPrefix ((sch ++ auth) ++ "/" ++ tail) "http://" = false := by
    unfold goHasPrefix
    rw [schemeData]
    rcases hsch with hs | hs <;> subst hs
    · have hd : ("ftp://" : String).data = ['f', 't', 'p', ':', '/', '/'] :=
        rfl
      rw [hd]
      simp [List.isPrefixOf]
    · have hd : ("sftp://" : String).data
          = ['s', 'f', 't', 'p', ':', '/', '/'] := rfl
      rw [hd]
      simp [List.isPrefixOf]
  have hh2 : goHasPrefix ((sch ++ auth) ++ "/" ++ tail) "https://" = false := by
    unfold goHasPrefix
    rw [schemeData]
    rcases hsch with hs | hs <;> subst hs
    · have hd : ("ftp://" : String).data = ['f', 't', 'p', ':', '/', '/'] :=
        rfl
      rw [hd]
      simp [List.isPrefixOf]
    · have hd : ("sftp://" : String).data
          = ['s', 'f', 't', 'p', ':', '/', '/'] := rfl
      rw [hd]
      simp [List.isPrefixOf]
  simp only [splitKey]
  rw [if_neg (by rw [hiso]; exact Bool.false_ne_true)]
  rw [hlast1, hlast2]
  have hmax : max (-1 : Int) (-1) = -1 := rfl
  rw [hmax]
  rw [if_neg (by decide : ¬ ((-1 : Int) ≠ -1))]
  rw [hh1, hh2]
  rw [if_neg (by simp : ¬ ((false || false) = true))]
  exact splitUrl_key sch auth tail hsch hslash

/-- Claim C6, amended: the round-trip `SplitKey(k + "/" + tail) = (k, tail)`
holds for an ISO-suffixed key whenever the tail contains no `.iso/`/`.ISO/`
boundary and does not itself end in the ISO suffix, and for a configured
URL-prefix key (an `ftp://` or `sftp://` scheme plus a slash-free
authority) under the same tail conditions when the key too is free of ISO
boundaries; in particular the claim's concrete FTP example splits exactly
as stated.  For an arbitrary tail the law fails (see the counterexample):
a boundary inside the tail moves the cut. -/
theorem splitKey_roundtrip :
    (∀ (dav : String → String × String × Bool) (k tail : String),
      isTypeIso k = true → containsSub tail ".iso/" = false →
      containsSub tail ".ISO/" = false → isTypeIso tail = false →
      splitKey dav (k ++ "/" ++ tail) = (k, tail))
  ∧ (∀ (dav : String → String × String × Bool) (sch auth tail : String),
      sch = "ftp://" ∨ sch = "sftp://" → '/' ∉ auth.data →
      containsSub (sch ++ auth) ".iso/" = false →
      containsSub (sch ++ auth) ".ISO/" = false →
      isTypeIso (sch ++ auth) = false →
      containsSub tail ".iso/" = false →
      containsSub tail ".ISO/" = false → isTypeIso tail = false →
      splitKey dav ((sch ++ auth) ++ "/" ++ tail) = (sch ++ auth, tail))
  ∧ splitKey davStub
      "ftp://u:p@h:21/a/external.iso/disk/internal.iso/d/doc1.txt"
      = ("ftp://u:p@h:21/a/external.iso/disk/internal.iso", "d/doc1.txt") :=
  ⟨splitKey_roundtrip_iso, splitKey_roundtrip_url, by decide⟩

/-- Claim C6, witness: the amended round-trip at a concrete ISO key and a
concrete sftp URL key, all hypotheses discharged concretely. -/
theorem splitKey_roundtrip_witness :
    splitKey davStub ("a.iso" ++ "/" ++ "docs/doc1.txt")
      = ("a.iso", "docs/doc1.txt")
  ∧ splitKey davStub (("sftp://" ++ "u:p@h:22") ++ "/" ++ "x/y.txt")
      = ("sftp://" ++ "u:p@h:22", "x/y.txt") := by
  refine ⟨splitKey_roundtrip.1 davStub "a.iso" "docs/doc1.txt"
      (by decide) (by decide) (by decide) (by decide),
    splitKey_roundtrip.2.1 davStub "sftp://" "u:p@h:22" "x/y.txt"
      (Or.inr rfl) (by decide) (by decide) (by decide) (by decide)
      (by decide) (by decide) (by decide)⟩

end Joint
